import Mathlib

/-!
Verification development for the Generic Nibble Trie (GNT) library and its
Generic Bitwise Trie (GBT) sibling (src/gnt.c, src/gnt.h, src/gbt.c, src/gbt.h).

Shallow embedding notes:
* A key is represented by the byte sequence its accessor produces: the engine
  loop `while (0 == accessor(&byte, key, index++))` consumes exactly that
  sequence.  Accessor output has C type uint8_t, so a byte value b enters the
  engine as b % 256.
* Machine integers: the per-node child counters have C type uint8_t; every
  unguarded increment/decrement is modelled with explicit % 256 arithmetic.
  Guarded decrements (preceded by a non-zero test) are plain truncated
  subtraction, exactly as in the source.
* Pointers: a NULL slot is None.  An operation that would dereference NULL or
  read an uninitialized local in C returns Option.none (undefined behavior).
* The deallocator callback is modelled by a Bool flag (configured or not) plus
  a trace: the list of data values passed to the callback, in call order.
* The mutex of the GNT variant only serializes the public operations; under
  the sequential semantics of this embedding lock/unlock are no-ops, so the
  state transformers below are the mutex-free bodies.  gbt.c is byte-for-byte
  the same algorithm without the mutex and with a different default accessor;
  it is transcribed separately further down and proved equivalent.
-/

namespace Gnt

/-! ### Slot arrays

Each trie level is a C array of 16 pointers.  We model such an array as a
`List (Option _)` of length 16; index i is slot i. -/

/-- Read slot i (NULL when out of range, which never happens for nibble
indices against length-16 arrays). -/
def slotGet (l : List (Option α)) (i : Nat) : Option α := l.getD i none

/-- Number of non-NULL slots. -/
def countSome : List (Option α) → Nat
  | [] => 0
  | none :: rest => countSome rest
  | some _ :: rest => countSome rest + 1

/-! ### Node types, from the struct declarations in gnt.c

struct gnt_nibble: uint8_t children; gnt_node_t* nodes[16];
struct gnt_node: bool occupied; uint8_t children; gnt_data_t data;
gnt_nibble_t* nibbles[16];  (gbt.c declares the identical layout). -/

mutual
inductive GntNibble : Type where
  | mk (children : Nat) (nodes : List (Option GntNode)) : GntNibble
inductive GntNode : Type where
  | mk (occupied : Bool) (children : Nat) (data : Nat) (nibbles : List (Option GntNibble)) : GntNode
end

def GntNibble.children : GntNibble → Nat
  | .mk c _ => c

def GntNibble.nodes : GntNibble → List (Option GntNode)
  | .mk _ n => n

def GntNode.occupied : GntNode → Bool
  | .mk o _ _ _ => o

def GntNode.children : GntNode → Nat
  | .mk _ c _ _ => c

def GntNode.data : GntNode → Nat
  | .mk _ _ d _ => d

def GntNode.nibbles : GntNode → List (Option GntNibble)
  | .mk _ _ _ n => n

/-- struct gnt_trie minus the mutex and the configuration callbacks:
uint8_t children; gnt_nibble_t* nibbles[16]. -/
structure GntTrie where
  children : Nat
  nibbles : List (Option GntNibble)

/-- calloc zeroes the nibble struct: children 0, all 16 node slots NULL. -/
def emptyNibble : GntNibble := .mk 0 (List.replicate 16 none)

/-- calloc zeroes the node struct: not occupied, children 0, data 0,
all 16 nibble slots NULL. -/
def emptyNode : GntNode := .mk false 0 0 (List.replicate 16 none)

/-- The state gnt_create returns (calloc of gnt_trie_t): children 0 and all
16 root slots NULL. -/
def gntCreate : GntTrie := ⟨0, List.replicate 16 none⟩

/-- GNT_HIGH_NIBBLE(byte) = byte >> 4 on the uint8_t value of the byte. -/
def highNib (b : Nat) : Nat := b % 256 / 16

/-- GNT_LOW_NIBBLE(byte) = byte & 0x0F. -/
def lowNib (b : Nat) : Nat := b % 16

/-! ### gnt_insert (gnt.c lines 120-167)

The while loop walks one key byte per iteration, lazily creating the nibble
layer and the node, incrementing the child counter of the level that gained
a child; after the loop the terminal node receives the payload (invoking the
deallocator on the old payload when the node was already occupied).
Modelled as recursion over the remaining byte list; the Nat result components
are (updated children counter of the enclosing level, updated slot array of
the enclosing level, deallocator call trace).  Allocation is assumed to
succeed, as in every claim considered here. -/

def gnt_insert_walk (children : Nat) (nibbles : List (Option GntNibble)) (b : Nat)
    (rest : List Nat) (d : Nat) (dealloc : Bool) :
    Nat × List (Option GntNibble) × List Nat :=
  let hi := highNib b
  let lo := lowNib b
  -- if (!nibbles[high_nibble]) { nibbles[high_nibble] = calloc(...); (*children)++; }
  let cn : Nat × GntNibble :=
    match slotGet nibbles hi with
    | none => ((children + 1) % 256, emptyNibble)
    | some nib => (children, nib)
  let children1 := cn.1
  let nib := cn.2
  -- if (!nodes[low_nibble]) { nodes[low_nibble] = calloc(...); (*children)++; }
  let cm : Nat × GntNode :=
    match slotGet nib.nodes lo with
    | none => ((nib.children + 1) % 256, emptyNode)
    | some nd => (nib.children, nd)
  let nibChildren1 := cm.1
  let node := cm.2
  match rest with
  | [] =>
    -- end of key: if (node->occupied && trie->deallocator) deallocator(node->data);
    -- node->data = data; node->occupied = true;
    let trace := if node.occupied && dealloc then [node.data] else []
    let node1 : GntNode := .mk true node.children d node.nibbles
    (children1, nibbles.set hi (some (.mk nibChildren1 (nib.nodes.set lo (some node1)))), trace)
  | b2 :: rest2 =>
    let r := gnt_insert_walk node.children node.nibbles b2 rest2 d dealloc
    let node1 : GntNode := .mk node.occupied r.1 node.data r.2.1
    (children1, nibbles.set hi (some (.mk nibChildren1 (nib.nodes.set lo (some node1)))), r.2.2)

/-- gnt_insert on a non-null trie.  For an empty byte sequence the C loop body
never runs and the final node-pointer read is of an uninitialized local:
undefined behavior, modelled as none. -/
def gnt_insert (t : GntTrie) (bytes : List Nat) (d : Nat) (dealloc : Bool) :
    Option (GntTrie × List Nat) :=
  match bytes with
  | [] => none
  | b :: rest =>
    let r := gnt_insert_walk t.children t.nibbles b rest d dealloc
    some (⟨r.1, r.2.1⟩, r.2.2)

/-! ### gnt_search (gnt.c lines 169-207) -/

def gnt_search_walk (nibbles : List (Option GntNibble)) (b : Nat) (rest : List Nat) : Nat :=
  let hi := highNib b
  let lo := lowNib b
  match slotGet nibbles hi with
  | none => 0
  | some nib =>
    match slotGet nib.nodes lo with
    | none => 0
    | some node =>
      match rest with
      | [] => node.data
      | b2 :: rest2 => gnt_search_walk node.nibbles b2 rest2

/-- gnt_search on a non-null trie.  As with insert, an empty byte sequence
reads an uninitialized node pointer: none. -/
def gnt_search (t : GntTrie) (bytes : List Nat) : Option Nat :=
  match bytes with
  | [] => none
  | b :: rest => some (gnt_search_walk t.nibbles b rest)

/-- The full public C function including the null-handle case:
if (!trie) return -1;  gnt_data_t is uintptr_t, 64-bit on the reference
platform, so -1 converts to 2^64 - 1. -/
def gnt_search_c (t : Option GntTrie) (bytes : List Nat) : Option Nat :=
  match t with
  | none => some (2 ^ 64 - 1)
  | some t => gnt_search t bytes

/-! ### gnt_delete (gnt.c lines 209-228 and 302-362)

The recursion returns the three-outcome status of _gnt_delete_recursive
together with the byte it wrote through the out-parameter (none when the
accessor failed, i.e. the END outcome, which leaves the out-parameter
untouched; callers initialize their local child_byte to 0).  The whole result
is none when the C code dereferences a NULL pointer, which happens exactly
when a nibble or node slot on the path is absent. -/

inductive DStatus where
  | END | CONTINUE | STOP
deriving DecidableEq

def gnt_delete_recursive (nibbles : List (Option GntNibble)) (bytes : List Nat)
    (dealloc : Bool) :
    Option (DStatus × Option Nat × List (Option GntNibble) × List Nat) :=
  match bytes with
  | [] => some (.END, none, nibbles, [])
  | b :: rest =>
    let byte := b % 256
    let hi := highNib b
    let lo := lowNib b
    match slotGet nibbles hi with
    | none => none        -- nibble == NULL: nibble->nodes dereferences NULL
    | some nib =>
      match slotGet nib.nodes lo with
      | none => none      -- node == NULL: node->nibbles dereferences NULL
      | some node =>
        match gnt_delete_recursive node.nibbles rest dealloc with
        | none => none
        | some (status, childByteOpt, nodeNibs1, trace) =>
          let childByte := childByteOpt.getD 0
          if status = .STOP then
            some (.STOP, some byte,
              nibbles.set hi (some (.mk nib.children (nib.nodes.set lo
                (some (.mk node.occupied node.children node.data nodeNibs1))))), trace)
          else
            -- if (END == status) { deallocator(node->data); node->data = 0;
            --   node->occupied = false; if (node->children) return STOP; }
            let step : GntNode × List Nat :=
              if status = .END then
                (.mk false node.children 0 nodeNibs1,
                 trace ++ (if dealloc then [node.data] else []))
              else
                (.mk node.occupied node.children node.data nodeNibs1, trace)
            let node2 := step.1
            let trace2 := step.2
            if status = .END ∧ node2.children ≠ 0 then
              some (.STOP, some byte,
                nibbles.set hi (some (.mk nib.children (nib.nodes.set lo (some node2)))), trace2)
            else
              -- free(node->nibbles[GNT_HIGH_NIBBLE(child_byte)]); slot = NULL;
              let nodeNibs2 := node2.nibbles.set (highNib childByte) none
              -- if (node->children) node->children--;
              let children2 := if node2.children ≠ 0 then node2.children - 1 else node2.children
              if children2 ≠ 0 then
                some (.STOP, some byte,
                  nibbles.set hi (some (.mk nib.children (nib.nodes.set lo
                    (some (.mk node2.occupied children2 node2.data nodeNibs2))))), trace2)
              else
                -- free(nibble->nodes[low_nibble]); slot = NULL; nibble->children--;
                let nodes2 := nib.nodes.set lo none
                let nibChildren2 := (nib.children + 255) % 256
                if nibChildren2 ≠ 0 then
                  some (.STOP, some byte, nibbles.set hi (some (.mk nibChildren2 nodes2)), trace2)
                else
                  some (.CONTINUE, some byte, nibbles.set hi (some (.mk nibChildren2 nodes2)), trace2)

/-- gnt_delete on a non-null trie (always returns status 0 in C; none here
models the NULL dereference inside the recursion). -/
def gnt_delete (t : GntTrie) (bytes : List Nat) (dealloc : Bool) :
    Option (GntTrie × List Nat) :=
  match gnt_delete_recursive t.nibbles bytes dealloc with
  | none => none
  | some (status, childByteOpt, nibbles1, trace) =>
    if status = .CONTINUE then
      if t.children ≠ 0 then
        let cb := childByteOpt.getD 0
        some (⟨t.children - 1, nibbles1.set (highNib cb) none⟩, trace)
      else some (⟨t.children, nibbles1⟩, trace)
    else some (⟨t.children, nibbles1⟩, trace)

/-! ### gnt_destroy (gnt.c lines 108-118 and 268-300)

The loops run while (children && i < 16), decrementing the countdown per
non-NULL slot visited; every visited node first destroys its subtree, then
(deallocator configured or not being the only test — occupied is NOT
consulted) passes its data field to the deallocator, then is freed.
The result is the deallocator call trace; all reached storage is freed. -/

mutual
def gnt_destroy_one_nibble : GntNibble → Bool → List Nat
  | .mk nch nnodes, dealloc => gnt_destroy_recursive_nodes nnodes nch dealloc

def gnt_destroy_recursive_nibbles : List (Option GntNibble) → Nat → Bool → List Nat
  | _, 0, _ => []
  | [], _, _ => []
  | none :: rest, c, dealloc => gnt_destroy_recursive_nibbles rest c dealloc
  | some nib :: rest, c, dealloc =>
    gnt_destroy_one_nibble nib dealloc ++ gnt_destroy_recursive_nibbles rest (c - 1) dealloc

def gnt_destroy_one_node : GntNode → Bool → List Nat
  | .mk _ nch nd nnibs, dealloc =>
    gnt_destroy_recursive_nibbles nnibs nch dealloc ++ (if dealloc then [nd] else [])

def gnt_destroy_recursive_nodes : List (Option GntNode) → Nat → Bool → List Nat
  | _, 0, _ => []
  | [], _, _ => []
  | none :: rest, c, dealloc => gnt_destroy_recursive_nodes rest c dealloc
  | some nd :: rest, c, dealloc =>
    gnt_destroy_one_node nd dealloc ++ gnt_destroy_recursive_nodes rest (c - 1) dealloc
end

/-- gnt_destroy on a non-null trie: the deallocator call trace. -/
def gnt_destroy (t : GntTrie) (dealloc : Bool) : List Nat :=
  gnt_destroy_recursive_nibbles t.nibbles t.children dealloc

/-! ### Structural well-formedness

The load-bearing invariant of the spec: every child counter equals the
number of non-NULL slots of the corresponding 16-slot array (and the arrays
have their declared length 16). -/

mutual
def wfNode : GntNode → Bool
  | .mk _ ch _ nibs => ch == countSome nibs && nibs.length == 16 && wfNibList nibs

def wfNibList : List (Option GntNibble) → Bool
  | [] => true
  | none :: rest => wfNibList rest
  | some nib :: rest => wfNib nib && wfNibList rest

def wfNib : GntNibble → Bool
  | .mk ch nodes => ch == countSome nodes && nodes.length == 16 && wfNodeList nodes

def wfNodeList : List (Option GntNode) → Bool
  | [] => true
  | none :: rest => wfNodeList rest
  | some nd :: rest => wfNode nd && wfNodeList rest
end

def wfTrie (t : GntTrie) : Bool :=
  t.children == countSome t.nibbles && t.nibbles.length == 16 && wfNibList t.nibbles

/-! ### Whole-tree observation functions (specification side)

Depth-first listings of the data fields of all allocated nodes and of the
occupied nodes only, in the same order gnt_destroy visits them. -/

mutual
def allDataNib : GntNibble → List Nat
  | .mk _ nnodes => allDataNodeList nnodes

def allDataNibList : List (Option GntNibble) → List Nat
  | [] => []
  | none :: rest => allDataNibList rest
  | some nib :: rest => allDataNib nib ++ allDataNibList rest

def allDataNode : GntNode → List Nat
  | .mk _ _ nd nnibs => allDataNibList nnibs ++ [nd]

def allDataNodeList : List (Option GntNode) → List Nat
  | [] => []
  | none :: rest => allDataNodeList rest
  | some nd :: rest => allDataNode nd ++ allDataNodeList rest
end

mutual
def occDataNib : GntNibble → List Nat
  | .mk _ nnodes => occDataNodeList nnodes

def occDataNibList : List (Option GntNibble) → List Nat
  | [] => []
  | none :: rest => occDataNibList rest
  | some nib :: rest => occDataNib nib ++ occDataNibList rest

def occDataNode : GntNode → List Nat
  | .mk occ _ nd nnibs => occDataNibList nnibs ++ (if occ then [nd] else [])

def occDataNodeList : List (Option GntNode) → List Nat
  | [] => []
  | none :: rest => occDataNodeList rest
  | some nd :: rest => occDataNode nd ++ occDataNodeList rest
end

/-- Data fields of all allocated nodes of a trie, destroy order. -/
def allData (t : GntTrie) : List Nat := allDataNibList t.nibbles

/-- Data fields of the occupied nodes of a trie, destroy order. -/
def occData (t : GntTrie) : List Nat := occDataNibList t.nibbles

/-- Resolve the full path of a byte sequence to its terminal node, if every
slot on the path is present (specification-side path walker). -/
def resolvePath (nibbles : List (Option GntNibble)) (b : Nat) (rest : List Nat) :
    Option GntNode :=
  match slotGet nibbles (highNib b) with
  | none => none
  | some nib =>
    match slotGet nib.nodes (lowNib b) with
    | none => none
    | some node =>
      match rest with
      | [] => some node
      | b2 :: rest2 => resolvePath node.nibbles b2 rest2

/-! ### Reachable trie states

gnt_create, then any sequence of gnt_insert (with a non-empty byte sequence,
so that the insert is defined) and gnt_delete (when it does not hit the NULL
dereference).  The dealloc flag does not influence the resulting structure,
so steps are stated with an arbitrary flag. -/

inductive Reachable : GntTrie → Prop where
  | create : Reachable gntCreate
  | insert (t : GntTrie) (bytes : List Nat) (d : Nat) (dealloc : Bool)
      (t2 : GntTrie) (trace : List Nat) :
      Reachable t → gnt_insert t bytes d dealloc = some (t2, trace) → Reachable t2
  | delete (t : GntTrie) (bytes : List Nat) (dealloc : Bool)
      (t2 : GntTrie) (trace : List Nat) :
      Reachable t → gnt_delete t bytes dealloc = some (t2, trace) → Reachable t2

/-! ### Default numeric accessor of gnt.c (lines 243-266)

The do-while loop counts base-256 digits (at least one, also for key 0);
on success the byte at position index is the digit of weight
256 ^ (digits - index - 1), most significant first. -/

def gnt_digits (key : Nat) : Nat :=
  if key < 256 then 1 else 1 + gnt_digits (key / 256)
decreasing_by exact Nat.div_lt_self (by omega) (by omega)

/-- The accessor itself: some byte while index < digits, none afterwards. -/
def gnt_accessor_default (key index : Nat) : Option Nat :=
  if index ≥ gnt_digits key then none
  else some (key / 256 ^ (gnt_digits key - index - 1) % 256)

/-- The byte sequence the default accessor feeds the engine for a key. -/
def gnt_default_bytes (key : Nat) : List Nat :=
  (List.range (gnt_digits key)).map (fun i => key / 256 ^ (gnt_digits key - i - 1) % 256)

/-- gnt_accessor_string (gnt.c lines 230-241): the key is a NUL-terminated
character buffer, modelled as the list of its character byte values; the
accessor yields byte index while index < strlen, fails afterwards. -/
def gnt_accessor_string (str : List Nat) (index : Nat) : Option Nat :=
  if index ≥ str.length then none else some (str.getD index 0 % 256)

/-! ### Derived forms used to state sequence properties -/

/-- Resulting state of gnt_insert with no deallocator configured (allocation
assumed to succeed; identity on the undefined empty-key case, which valid
keys exclude). -/
def gnt_insert_state (t : GntTrie) (bytes : List Nat) (d : Nat) : GntTrie :=
  match gnt_insert t bytes d false with
  | none => t
  | some (t2, _) => t2

/-- Fold a list of (key bytes, payload) insert operations over a trie. -/
def insertAll (t : GntTrie) (ops : List (List Nat × Nat)) : GntTrie :=
  ops.foldl (fun acc p => gnt_insert_state acc p.1 p.2) t

/-- The payload of the most recent insert for a key in an operation list. -/
def lastPayload (ops : List (List Nat × Nat)) (k : List Nat) : Option Nat :=
  ops.foldl (fun acc p => if p.1 = k then some p.2 else acc) none

/-- A key byte sequence the C engine handles: non-empty, uint8 byte values. -/
abbrev ValidKey (k : List Nat) : Prop := k ≠ [] ∧ ∀ x ∈ k, x < 256

/-! ### Concrete states used as checked scenarios

String keys "a" (0x61 = 97) and "ab" (97, 98) as in the spec scenario. -/

def trieA : GntTrie := gnt_insert_state gntCreate [97] 1

def trieAB : GntTrie := gnt_insert_state trieA [97, 98] 2

def trieOnlyAB : GntTrie := gnt_insert_state gntCreate [97, 98] 2

end Gnt

namespace Gbt

open Gnt

/-! ### gbt.c: the mutex-free variant

gbt.c declares the identical struct layout (gbt_nibble, gbt_node, gbt_trie
minus the mutex), the same three-outcome enum, and operation bodies that are
line-for-line the bodies of gnt.c without mtx_lock/mtx_unlock.  They are
transcribed here separately from gbt.c, over the same tree types, and proved
extensionally equal to the gnt versions. -/

def gbt_insert_walk (children : Nat) (nibbles : List (Option GntNibble)) (b : Nat)
    (rest : List Nat) (d : Nat) (dealloc : Bool) :
    Nat × List (Option GntNibble) × List Nat :=
  let hi := highNib b
  let lo := lowNib b
  let cn : Nat × GntNibble :=
    match slotGet nibbles hi with
    | none => ((children + 1) % 256, emptyNibble)
    | some nib => (children, nib)
  let children1 := cn.1
  let nib := cn.2
  let cm : Nat × GntNode :=
    match slotGet nib.nodes lo with
    | none => ((nib.children + 1) % 256, emptyNode)
    | some nd => (nib.children, nd)
  let nibChildren1 := cm.1
  let node := cm.2
  match rest with
  | [] =>
    let trace := if node.occupied && dealloc then [node.data] else []
    let node1 : GntNode := .mk true node.children d node.nibbles
    (children1, nibbles.set hi (some (.mk nibChildren1 (nib.nodes.set lo (some node1)))), trace)
  | b2 :: rest2 =>
    let r := gbt_insert_walk node.children node.nibbles b2 rest2 d dealloc
    let node1 : GntNode := .mk node.occupied r.1 node.data r.2.1
    (children1, nibbles.set hi (some (.mk nibChildren1 (nib.nodes.set lo (some node1)))), r.2.2)

def gbt_insert (t : GntTrie) (bytes : List Nat) (d : Nat) (dealloc : Bool) :
    Option (GntTrie × List Nat) :=
  match bytes with
  | [] => none
  | b :: rest =>
    let r := gbt_insert_walk t.children t.nibbles b rest d dealloc
    some (⟨r.1, r.2.1⟩, r.2.2)

def gbt_search_walk (nibbles : List (Option GntNibble)) (b : Nat) (rest : List Nat) : Nat :=
  let hi := highNib b
  let lo := lowNib b
  match slotGet nibbles hi with
  | none => 0
  | some nib =>
    match slotGet nib.nodes lo with
    | none => 0
    | some node =>
      match rest with
      | [] => node.data
      | b2 :: rest2 => gbt_search_walk node.nibbles b2 rest2

def gbt_search (t : GntTrie) (bytes : List Nat) : Option Nat :=
  match bytes with
  | [] => none
  | b :: rest => some (gbt_search_walk t.nibbles b rest)

def gbt_delete_recursive (nibbles : List (Option GntNibble)) (bytes : List Nat)
    (dealloc : Bool) :
    Option (DStatus × Option Nat × List (Option GntNibble) × List Nat) :=
  match bytes with
  | [] => some (.END, none, nibbles, [])
  | b :: rest =>
    let byte := b % 256
    let hi := highNib b
    let lo := lowNib b
    match slotGet nibbles hi with
    | none => none
    | some nib =>
      match slotGet nib.nodes lo with
      | none => none
      | some node =>
        match gbt_delete_recursive node.nibbles rest dealloc with
        | none => none
        | some (status, childByteOpt, nodeNibs1, trace) =>
          let childByte := childByteOpt.getD 0
          if status = .STOP then
            some (.STOP, some byte,
              nibbles.set hi (some (.mk nib.children (nib.nodes.set lo
                (some (.mk node.occupied node.children node.data nodeNibs1))))), trace)
          else
            let step : GntNode × List Nat :=
              if status = .END then
                (.mk false node.children 0 nodeNibs1,
                 trace ++ (if dealloc then [node.data] else []))
              else
                (.mk node.occupied node.children node.data nodeNibs1, trace)
            let node2 := step.1
            let trace2 := step.2
            if status = .END ∧ node2.children ≠ 0 then
              some (.STOP, some byte,
                nibbles.set hi (some (.mk nib.children (nib.nodes.set lo (some node2)))), trace2)
            else
              let nodeNibs2 := node2.nibbles.set (highNib childByte) none
              let children2 := if node2.children ≠ 0 then node2.children - 1 else node2.children
              if children2 ≠ 0 then
                some (.STOP, some byte,
                  nibbles.set hi (some (.mk nib.children (nib.nodes.set lo
                    (some (.mk node2.occupied children2 node2.data nodeNibs2))))), trace2)
              else
                let nodes2 := nib.nodes.set lo none
                let nibChildren2 := (nib.children + 255) % 256
                if nibChildren2 ≠ 0 then
                  some (.STOP, some byte, nibbles.set hi (some (.mk nibChildren2 nodes2)), trace2)
                else
                  some (.CONTINUE, some byte, nibbles.set hi (some (.mk nibChildren2 nodes2)), trace2)

def gbt_delete (t : GntTrie) (bytes : List Nat) (dealloc : Bool) :
    Option (GntTrie × List Nat) :=
  match gbt_delete_recursive t.nibbles bytes dealloc with
  | none => none
  | some (status, childByteOpt, nibbles1, trace) =>
    if status = .CONTINUE then
      if t.children ≠ 0 then
        let cb := childByteOpt.getD 0
        some (⟨t.children - 1, nibbles1.set (highNib cb) none⟩, trace)
      else some (⟨t.children, nibbles1⟩, trace)
    else some (⟨t.children, nibbles1⟩, trace)

mutual
def gbt_destroy_one_nibble : GntNibble → Bool → List Nat
  | .mk nch nnodes, dealloc => gbt_destroy_recursive_nodes nnodes nch dealloc

def gbt_destroy_recursive_nibbles : List (Option GntNibble) → Nat → Bool → List Nat
  | _, 0, _ => []
  | [], _, _ => []
  | none :: rest, c, dealloc => gbt_destroy_recursive_nibbles rest c dealloc
  | some nib :: rest, c, dealloc =>
    gbt_destroy_one_nibble nib dealloc ++ gbt_destroy_recursive_nibbles rest (c - 1) dealloc

def gbt_destroy_one_node : GntNode → Bool → List Nat
  | .mk _ nch nd nnibs, dealloc =>
    gbt_destroy_recursive_nibbles nnibs nch dealloc ++ (if dealloc then [nd] else [])

def gbt_destroy_recursive_nodes : List (Option GntNode) → Nat → Bool → List Nat
  | _, 0, _ => []
  | [], _, _ => []
  | none :: rest, c, dealloc => gbt_destroy_recursive_nodes rest c dealloc
  | some nd :: rest, c, dealloc =>
    gbt_destroy_one_node nd dealloc ++ gbt_destroy_recursive_nodes rest (c - 1) dealloc
end

def gbt_destroy (t : GntTrie) (dealloc : Bool) : List Nat :=
  gbt_destroy_recursive_nibbles t.nibbles t.children dealloc

/-! ### Default numeric accessor of gbt.c (lines 223-246): decimal digits. -/

def gbt_digits (key : Nat) : Nat :=
  if key < 10 then 1 else 1 + gbt_digits (key / 10)
decreasing_by exact Nat.div_lt_self (by omega) (by omega)

def gbt_accessor_default (key index : Nat) : Option Nat :=
  if index ≥ gbt_digits key then none
  else some (key / 10 ^ (gbt_digits key - index - 1) % 10)

def gbt_default_bytes (key : Nat) : List Nat :=
  (List.range (gbt_digits key)).map (fun i => key / 10 ^ (gbt_digits key - i - 1) % 10)

end Gbt

namespace GntSpec

/-! ### Specification-side accessor descriptions (for the refinement claim)

Written from the words of the spec: decomposition of an unsigned integer into
decimal digits most-significant-first, and into base-256 bytes
most-significant-first. -/

def decimalDigitsMSB (key : Nat) : List Nat :=
  if key < 10 then [key] else decimalDigitsMSB (key / 10) ++ [key % 10]
decreasing_by exact Nat.div_lt_self (by omega) (by omega)

def base256BytesMSB (key : Nat) : List Nat :=
  if key < 256 then [key] else base256BytesMSB (key / 256) ++ [key % 256]
decreasing_by exact Nat.div_lt_self (by omega) (by omega)

end GntSpec

namespace Gnt

/-! ### Generic lemmas about 16-pointer slot arrays -/

theorem slotGet_nil (i : Nat) : slotGet ([] : List (Option α)) i = none := rfl

theorem slotGet_cons_zero (a : Option α) (l : List (Option α)) :
    slotGet (a :: l) 0 = a := rfl

theorem slotGet_cons_succ (a : Option α) (l : List (Option α)) (i : Nat) :
    slotGet (a :: l) (i + 1) = slotGet l i := rfl

theorem slotGet_replicate_none (n i : Nat) :
    slotGet (List.replicate n none : List (Option α)) i = none := by
  induction n generalizing i with
  | zero => rfl
  | succ n ih =>
    cases i with
    | zero => rfl
    | succ i => simpa [List.replicate_succ, slotGet_cons_succ] using ih i

theorem countSome_replicate_none (n : Nat) :
    countSome (List.replicate n none : List (Option α)) = 0 := by
  induction n with
  | zero => rfl
  | succ n ih => simpa [List.replicate_succ, countSome] using ih

theorem countSome_le_length (l : List (Option α)) : countSome l ≤ l.length := by
  induction l with
  | nil => simp [countSome]
  | cons a rest ih => cases a <;> simp [countSome] <;> omega

theorem slotGet_set_self (l : List (Option α)) (i : Nat) (v : Option α)
    (h : i < l.length) : slotGet (l.set i v) i = v := by
  induction l generalizing i with
  | nil => simp at h
  | cons a rest ih =>
    cases i with
    | zero => rfl
    | succ i => simpa [List.set, slotGet_cons_succ] using ih i (by simpa using h)

theorem slotGet_set_ne (l : List (Option α)) (i j : Nat) (v : Option α)
    (h : i ≠ j) : slotGet (l.set i v) j = slotGet l j := by
  induction l generalizing i j with
  | nil => rfl
  | cons a rest ih =>
    cases i with
    | zero =>
      cases j with
      | zero => exact absurd rfl h
      | succ j => rfl
    | succ i =>
      cases j with
      | zero => rfl
      | succ j => simpa [List.set, slotGet_cons_succ] using ih i j (by omega)

theorem countSome_set_some_of_none (l : List (Option α)) (i : Nat) (x : α)
    (hlt : i < l.length) (h : slotGet l i = none) :
    countSome (l.set i (some x)) = countSome l + 1 := by
  induction l generalizing i with
  | nil => simp at hlt
  | cons a rest ih =>
    cases i with
    | zero =>
      cases a with
      | none => simp [List.set, countSome]
      | some y => simp [slotGet_cons_zero] at h
    | succ i =>
      have := ih i (by simpa using hlt) (by simpa [slotGet_cons_succ] using h)
      cases a <;> simp [List.set, countSome, this] <;> omega

theorem countSome_set_some_of_some (l : List (Option α)) (i : Nat) (x y : α)
    (h : slotGet l i = some y) :
    countSome (l.set i (some x)) = countSome l := by
  induction l generalizing i with
  | nil => rfl
  | cons a rest ih =>
    cases i with
    | zero =>
      cases a with
      | none => simp [slotGet_cons_zero] at h
      | some z => simp [List.set, countSome]
    | succ i =>
      have := ih i (by simpa [slotGet_cons_succ] using h)
      cases a <;> simp [List.set, countSome, this]

theorem countSome_set_none_of_some (l : List (Option α)) (i : Nat) (y : α)
    (h : slotGet l i = some y) :
    countSome (l.set i none) + 1 = countSome l := by
  induction l generalizing i with
  | nil => simp [slotGet_nil] at h
  | cons a rest ih =>
    cases i with
    | zero =>
      cases a with
      | none => simp [slotGet_cons_zero] at h
      | some z => simp [List.set, countSome]
    | succ i =>
      have := ih i (by simpa [slotGet_cons_succ] using h)
      cases a <;> simp [List.set, countSome] <;> omega

theorem countSome_pos_of_slotGet_some (l : List (Option α)) (i : Nat) (y : α)
    (h : slotGet l i = some y) : 0 < countSome l := by
  induction l generalizing i with
  | nil => simp [slotGet_nil] at h
  | cons a rest ih =>
    cases i with
    | zero =>
      cases a with
      | none => simp [slotGet_cons_zero] at h
      | some z => simp [countSome]
    | succ i =>
      have := ih i (by simpa [slotGet_cons_succ] using h)
      cases a <;> simp [countSome] <;> omega

theorem slotGet_eq_none_of_countSome_zero (l : List (Option α)) (i : Nat)
    (h : countSome l = 0) : slotGet l i = none := by
  induction l generalizing i with
  | nil => rfl
  | cons a rest ih =>
    cases a with
    | none =>
      cases i with
      | zero => rfl
      | succ i => exact ih i (by simpa [countSome] using h)
    | some y => simp [countSome] at h

/-! ### wf helper lemmas -/

theorem wfNib_slotGet_of_wfNibList (l : List (Option GntNibble)) (i : Nat)
    (nib : GntNibble) (hwf : wfNibList l = true) (h : slotGet l i = some nib) :
    wfNib nib = true := by
  induction l generalizing i with
  | nil => simp [slotGet_nil] at h
  | cons a rest ih =>
    cases i with
    | zero =>
      cases a with
      | none => simp [slotGet_cons_zero] at h
      | some nb =>
        rw [slotGet_cons_zero] at h
        cases h
        have := hwf
        simp [wfNibList] at this
        exact this.1
    | succ i =>
      cases a with
      | none => exact ih i (by simpa [wfNibList] using hwf) (by simpa [slotGet_cons_succ] using h)
      | some nb =>
        have hw : wfNibList rest = true := by
          have := hwf
          simp [wfNibList] at this
          exact this.2
        exact ih i hw (by simpa [slotGet_cons_succ] using h)

theorem wfNode_slotGet_of_wfNodeList (l : List (Option GntNode)) (i : Nat)
    (nd : GntNode) (hwf : wfNodeList l = true) (h : slotGet l i = some nd) :
    wfNode nd = true := by
  induction l generalizing i with
  | nil => simp [slotGet_nil] at h
  | cons a rest ih =>
    cases i with
    | zero =>
      cases a with
      | none => simp [slotGet_cons_zero] at h
      | some nb =>
        rw [slotGet_cons_zero] at h
        cases h
        have := hwf
        simp [wfNodeList] at this
        exact this.1
    | succ i =>
      cases a with
      | none => exact ih i (by simpa [wfNodeList] using hwf) (by simpa [slotGet_cons_succ] using h)
      | some nb =>
        have hw : wfNodeList rest = true := by
          have := hwf
          simp [wfNodeList] at this
          exact this.2
        exact ih i hw (by simpa [slotGet_cons_succ] using h)

theorem wfNibList_set_some (l : List (Option GntNibble)) (i : Nat) (nib : GntNibble)
    (hwf : wfNibList l = true) (hnib : wfNib nib = true) :
    wfNibList (l.set i (some nib)) = true := by
  induction l generalizing i with
  | nil => simpa [wfNibList]
  | cons a rest ih =>
    cases i with
    | zero =>
      cases a with
      | none => simp [List.set, wfNibList, hnib]; simpa [wfNibList] using hwf
      | some nb =>
        simp [wfNibList] at hwf
        simp [List.set, wfNibList, hnib, hwf.2]
    | succ i =>
      cases a with
      | none => simp [List.set, wfNibList]; exact ih i (by simpa [wfNibList] using hwf)
      | some nb =>
        simp [wfNibList] at hwf
        simp [List.set, wfNibList, hwf.1]
        exact ih i hwf.2

theorem wfNodeList_set_some (l : List (Option GntNode)) (i : Nat) (nd : GntNode)
    (hwf : wfNodeList l = true) (hnd : wfNode nd = true) :
    wfNodeList (l.set i (some nd)) = true := by
  induction l generalizing i with
  | nil => simpa [wfNodeList]
  | cons a rest ih =>
    cases i with
    | zero =>
      cases a with
      | none => simp [List.set, wfNodeList, hnd]; simpa [wfNodeList] using hwf
      | some nb =>
        simp [wfNodeList] at hwf
        simp [List.set, wfNodeList, hnd, hwf.2]
    | succ i =>
      cases a with
      | none => simp [List.set, wfNodeList]; exact ih i (by simpa [wfNodeList] using hwf)
      | some nb =>
        simp [wfNodeList] at hwf
        simp [List.set, wfNodeList, hwf.1]
        exact ih i hwf.2

theorem wfNibList_set_none (l : List (Option GntNibble)) (i : Nat)
    (hwf : wfNibList l = true) : wfNibList (l.set i none) = true := by
  induction l generalizing i with
  | nil => simpa [wfNibList]
  | cons a rest ih =>
    cases i with
    | zero =>
      cases a with
      | none => simpa [List.set, wfNibList] using hwf
      | some nb =>
        simp [wfNibList] at hwf
        simp [List.set, wfNibList, hwf.2]
    | succ i =>
      cases a with
      | none => simp [List.set, wfNibList]; exact ih i (by simpa [wfNibList] using hwf)
      | some nb =>
        simp [wfNibList] at hwf
        simp [List.set, wfNibList, hwf.1]
        exact ih i hwf.2

theorem wfNodeList_set_none (l : List (Option GntNode)) (i : Nat)
    (hwf : wfNodeList l = true) : wfNodeList (l.set i none) = true := by
  induction l generalizing i with
  | nil => simpa [wfNodeList]
  | cons a rest ih =>
    cases i with
    | zero =>
      cases a with
      | none => simpa [List.set, wfNodeList] using hwf
      | some nb =>
        simp [wfNodeList] at hwf
        simp [List.set, wfNodeList, hwf.2]
    | succ i =>
      cases a with
      | none => simp [List.set, wfNodeList]; exact ih i (by simpa [wfNodeList] using hwf)
      | some nb =>
        simp [wfNodeList] at hwf
        simp [List.set, wfNodeList, hwf.1]
        exact ih i hwf.2

theorem wfNib_elim (ch : Nat) (nodes : List (Option GntNode))
    (h : wfNib (.mk ch nodes) = true) :
    ch = countSome nodes ∧ nodes.length = 16 ∧ wfNodeList nodes = true := by
  have := h
  simp [wfNib] at this
  exact ⟨this.1.1, this.1.2, this.2⟩

theorem wfNode_elim (occ : Bool) (ch : Nat) (d : Nat) (nibs : List (Option GntNibble))
    (h : wfNode (.mk occ ch d nibs) = true) :
    ch = countSome nibs ∧ nibs.length = 16 ∧ wfNibList nibs = true := by
  have := h
  simp [wfNode] at this
  exact ⟨this.1.1, this.1.2, this.2⟩

theorem wfNib_intro (ch : Nat) (nodes : List (Option GntNode))
    (h1 : ch = countSome nodes) (h2 : nodes.length = 16) (h3 : wfNodeList nodes = true) :
    wfNib (.mk ch nodes) = true := by
  simp [wfNib, h1, h2, h3]

theorem wfNode_intro (occ : Bool) (ch : Nat) (d : Nat) (nibs : List (Option GntNibble))
    (h1 : ch = countSome nibs) (h2 : nibs.length = 16) (h3 : wfNibList nibs = true) :
    wfNode (.mk occ ch d nibs) = true := by
  simp [wfNode, h1, h2, h3]

theorem highNib_lt_16 (b : Nat) : highNib b < 16 := by
  have : b % 256 < 256 := Nat.mod_lt _ (by omega)
  simp only [highNib]
  omega

theorem lowNib_lt_16 (b : Nat) : lowNib b < 16 := by
  simp only [lowNib]
  omega

theorem wf_emptyNibble : wfNib emptyNibble = true := by decide

theorem wf_emptyNode : wfNode emptyNode = true := by decide

theorem countSome_succ_mod (l : List (Option α)) (h : l.length = 16) :
    (countSome l + 1) % 256 = countSome l + 1 := by
  have := countSome_le_length l
  rw [h] at this
  exact Nat.mod_eq_of_lt (by omega)

/-! ### Projection computation lemmas -/

@[simp] theorem GntNibble_children_mk (c : Nat) (n : List (Option GntNode)) :
    GntNibble.children (.mk c n) = c := rfl

@[simp] theorem GntNibble_nodes_mk (c : Nat) (n : List (Option GntNode)) :
    GntNibble.nodes (.mk c n) = n := rfl

@[simp] theorem GntNode_occupied_mk (o : Bool) (c d : Nat) (n : List (Option GntNibble)) :
    GntNode.occupied (.mk o c d n) = o := rfl

@[simp] theorem GntNode_children_mk (o : Bool) (c d : Nat) (n : List (Option GntNibble)) :
    GntNode.children (.mk o c d n) = c := rfl

@[simp] theorem GntNode_data_mk (o : Bool) (c d : Nat) (n : List (Option GntNibble)) :
    GntNode.data (.mk o c d n) = d := rfl

@[simp] theorem GntNode_nibbles_mk (o : Bool) (c d : Nat) (n : List (Option GntNibble)) :
    GntNode.nibbles (.mk o c d n) = n := rfl

theorem emptyNibble_eta : emptyNibble = .mk 0 (List.replicate 16 none) := rfl

theorem emptyNode_eta : emptyNode = .mk false 0 0 (List.replicate 16 none) := rfl

theorem wfNibList_rep16 : wfNibList (List.replicate 16 none) = true := by decide

theorem wfNodeList_rep16 : wfNodeList (List.replicate 16 none) = true := by decide

theorem length_rep16 : (List.replicate 16 (none : Option α)).length = 16 := by simp

/-! ### Insert: preservation of the child-count invariant -/

theorem gnt_insert_walk_wf (rest : List Nat) :
    ∀ (children : Nat) (nibbles : List (Option GntNibble)) (b d : Nat) (dl : Bool),
    children = countSome nibbles → nibbles.length = 16 → wfNibList nibbles = true →
    (gnt_insert_walk children nibbles b rest d dl).1
        = countSome (gnt_insert_walk children nibbles b rest d dl).2.1
      ∧ (gnt_insert_walk children nibbles b rest d dl).2.1.length = 16
      ∧ wfNibList (gnt_insert_walk children nibbles b rest d dl).2.1 = true := by
  induction rest with
  | nil =>
    intro children nibbles b d dl hch hlen hwf
    have hhi : highNib b < 16 := highNib_lt_16 b
    have hlo : lowNib b < 16 := lowNib_lt_16 b
    cases hnib : slotGet nibbles (highNib b) with
    | none =>
      have hnode : slotGet (List.replicate 16 (none : Option GntNode)) (lowNib b) = none :=
        slotGet_replicate_none 16 _
      simp only [gnt_insert_walk, hnib, emptyNibble_eta, emptyNode_eta, GntNibble_children_mk,
        GntNibble_nodes_mk, GntNode_occupied_mk, GntNode_children_mk, GntNode_data_mk,
        GntNode_nibbles_mk, hnode]
      refine ⟨?_, ?_, ?_⟩
      · rw [countSome_set_some_of_none nibbles _ _ (by omega) hnib, hch,
          countSome_succ_mod nibbles hlen]
      · rw [List.length_set, hlen]
      · refine wfNibList_set_some _ _ _ hwf (wfNib_intro _ _ ?_ ?_ ?_)
        · rw [countSome_set_some_of_none _ _ _ (by rw [length_rep16]; omega)
            (slotGet_replicate_none 16 _), countSome_replicate_none]
        · rw [List.length_set, length_rep16]
        · exact wfNodeList_set_some _ _ _ wfNodeList_rep16
            (wfNode_intro _ _ _ _ (by rw [countSome_replicate_none]) length_rep16 wfNibList_rep16)
    | some nib =>
      obtain ⟨nch, nnodes⟩ := nib
      obtain ⟨hn1, hn2, hn3⟩ := wfNib_elim _ _ (wfNib_slotGet_of_wfNibList nibbles _ _ hwf hnib)
      cases hnode : slotGet nnodes (lowNib b) with
      | none =>
        simp only [gnt_insert_walk, hnib, emptyNode_eta, GntNibble_children_mk,
          GntNibble_nodes_mk, GntNode_occupied_mk, GntNode_children_mk, GntNode_data_mk,
          GntNode_nibbles_mk, hnode]
        refine ⟨?_, ?_, ?_⟩
        · rw [countSome_set_some_of_some nibbles _ _ _ hnib]; exact hch
        · rw [List.length_set, hlen]
        · refine wfNibList_set_some _ _ _ hwf (wfNib_intro _ _ ?_ ?_ ?_)
          · rw [countSome_set_some_of_none _ _ _ (by rw [hn2]; omega) hnode, hn1]
            have hle := countSome_le_length nnodes
            rw [hn2] at hle
            omega
          · rw [List.length_set, hn2]
          · exact wfNodeList_set_some _ _ _ hn3
              (wfNode_intro _ _ _ _ (by rw [countSome_replicate_none]) length_rep16 wfNibList_rep16)
      | some node =>
        obtain ⟨occ, ndch, ndd, ndnibs⟩ := node
        obtain ⟨hm1, hm2, hm3⟩ := wfNode_elim _ _ _ _
          (wfNode_slotGet_of_wfNodeList _ _ _ hn3 hnode)
        simp only [gnt_insert_walk, hnib, GntNibble_children_mk, GntNibble_nodes_mk,
          GntNode_occupied_mk, GntNode_children_mk, GntNode_data_mk, GntNode_nibbles_mk, hnode]
        refine ⟨?_, ?_, ?_⟩
        · rw [countSome_set_some_of_some nibbles _ _ _ hnib]; exact hch
        · rw [List.length_set, hlen]
        · refine wfNibList_set_some _ _ _ hwf (wfNib_intro _ _ ?_ ?_ ?_)
          · rw [countSome_set_some_of_some _ _ _ _ hnode]; exact hn1
          · rw [List.length_set, hn2]
          · exact wfNodeList_set_some _ _ _ hn3 (wfNode_intro _ _ _ _ hm1 hm2 hm3)
  | cons b2 rest2 ih =>
    intro children nibbles b d dl hch hlen hwf
    have hhi : highNib b < 16 := highNib_lt_16 b
    have hlo : lowNib b < 16 := lowNib_lt_16 b
    have hempty := ih 0 (List.replicate 16 none) b2 d dl
      (by rw [countSome_replicate_none]) length_rep16 wfNibList_rep16
    cases hnib : slotGet nibbles (highNib b) with
    | none =>
      have hnode : slotGet (List.replicate 16 (none : Option GntNode)) (lowNib b) = none :=
        slotGet_replicate_none 16 _
      simp only [gnt_insert_walk, hnib, emptyNibble_eta, emptyNode_eta, GntNibble_children_mk,
        GntNibble_nodes_mk, GntNode_occupied_mk, GntNode_children_mk, GntNode_data_mk,
        GntNode_nibbles_mk, hnode]
      refine ⟨?_, ?_, ?_⟩
      · rw [countSome_set_some_of_none nibbles _ _ (by omega) hnib, hch,
          countSome_succ_mod nibbles hlen]
      · rw [List.length_set, hlen]
      · refine wfNibList_set_some _ _ _ hwf (wfNib_intro _ _ ?_ ?_ ?_)
        · rw [countSome_set_some_of_none _ _ _ (by rw [length_rep16]; omega)
            (slotGet_replicate_none 16 _), countSome_replicate_none]
        · rw [List.length_set, length_rep16]
        · exact wfNodeList_set_some _ _ _ wfNodeList_rep16
            (wfNode_intro _ _ _ _ hempty.1 hempty.2.1 hempty.2.2)
    | some nib =>
      obtain ⟨nch, nnodes⟩ := nib
      obtain ⟨hn1, hn2, hn3⟩ := wfNib_elim _ _ (wfNib_slotGet_of_wfNibList nibbles _ _ hwf hnib)
      cases hnode : slotGet nnodes (lowNib b) with
      | none =>
        simp only [gnt_insert_walk, hnib, emptyNode_eta, GntNibble_children_mk,
          GntNibble_nodes_mk, GntNode_occupied_mk, GntNode_children_mk, GntNode_data_mk,
          GntNode_nibbles_mk, hnode]
        refine ⟨?_, ?_, ?_⟩
        · rw [countSome_set_some_of_some nibbles _ _ _ hnib]; exact hch
        · rw [List.length_set, hlen]
        · refine wfNibList_set_some _ _ _ hwf (wfNib_intro _ _ ?_ ?_ ?_)
          · rw [countSome_set_some_of_none _ _ _ (by rw [hn2]; omega) hnode, hn1]
            have hle := countSome_le_length nnodes
            rw [hn2] at hle
            omega
          · rw [List.length_set, hn2]
          · exact wfNodeList_set_some _ _ _ hn3
              (wfNode_intro _ _ _ _ hempty.1 hempty.2.1 hempty.2.2)
      | some node =>
        obtain ⟨occ, ndch, ndd, ndnibs⟩ := node
        obtain ⟨hm1, hm2, hm3⟩ := wfNode_elim _ _ _ _
          (wfNode_slotGet_of_wfNodeList _ _ _ hn3 hnode)
        have hrec := ih ndch ndnibs b2 d dl hm1 hm2 hm3
        simp only [gnt_insert_walk, hnib, GntNibble_children_mk, GntNibble_nodes_mk,
          GntNode_occupied_mk, GntNode_children_mk, GntNode_data_mk, GntNode_nibbles_mk, hnode]
        refine ⟨?_, ?_, ?_⟩
        · rw [countSome_set_some_of_some nibbles _ _ _ hnib]; exact hch
        · rw [List.length_set, hlen]
        · refine wfNibList_set_some _ _ _ hwf (wfNib_intro _ _ ?_ ?_ ?_)
          · rw [countSome_set_some_of_some _ _ _ _ hnode]; exact hn1
          · rw [List.length_set, hn2]
          · exact wfNodeList_set_some _ _ _ hn3
              (wfNode_intro _ _ _ _ hrec.1 hrec.2.1 hrec.2.2)

/-! ### Search lemmas

gnt_search_walk and resolvePath recurse under matches on slot lookups, so
their automatically generated equation is a single unconditional one;
rewriting with it under simp loops.  The four step lemmas below unfold one
level in a controlled way. -/

theorem gnt_search_walk_step_none (nibbles : List (Option GntNibble)) (b : Nat)
    (rest : List Nat) (h : slotGet nibbles (highNib b) = none) :
    gnt_search_walk nibbles b rest = 0 := by
  rw [gnt_search_walk.eq_1]
  simp only [h]

theorem gnt_search_walk_step_nodeNone (nibbles : List (Option GntNibble)) (b : Nat)
    (rest : List Nat) (nib : GntNibble)
    (h1 : slotGet nibbles (highNib b) = some nib)
    (h2 : slotGet nib.nodes (lowNib b) = none) :
    gnt_search_walk nibbles b rest = 0 := by
  rw [gnt_search_walk.eq_1]
  simp only [h1, h2]

theorem gnt_search_walk_step_nil (nibbles : List (Option GntNibble)) (b : Nat)
    (nib : GntNibble) (node : GntNode)
    (h1 : slotGet nibbles (highNib b) = some nib)
    (h2 : slotGet nib.nodes (lowNib b) = some node) :
    gnt_search_walk nibbles b [] = node.data := by
  rw [gnt_search_walk.eq_1]
  simp only [h1, h2]

theorem gnt_search_walk_step_cons (nibbles : List (Option GntNibble)) (b b2 : Nat)
    (rest2 : List Nat) (nib : GntNibble) (node : GntNode)
    (h1 : slotGet nibbles (highNib b) = some nib)
    (h2 : slotGet nib.nodes (lowNib b) = some node) :
    gnt_search_walk nibbles b (b2 :: rest2) = gnt_search_walk node.nibbles b2 rest2 := by
  rw [gnt_search_walk.eq_1]
  simp only [h1, h2]

theorem resolvePath_step_none (nibbles : List (Option GntNibble)) (b : Nat)
    (rest : List Nat) (h : slotGet nibbles (highNib b) = none) :
    resolvePath nibbles b rest = none := by
  rw [resolvePath.eq_1]
  simp only [h]

theorem resolvePath_step_nodeNone (nibbles : List (Option GntNibble)) (b : Nat)
    (rest : List Nat) (nib : GntNibble)
    (h1 : slotGet nibbles (highNib b) = some nib)
    (h2 : slotGet nib.nodes (lowNib b) = none) :
    resolvePath nibbles b rest = none := by
  rw [resolvePath.eq_1]
  simp only [h1, h2]

theorem resolvePath_step_nil (nibbles : List (Option GntNibble)) (b : Nat)
    (nib : GntNibble) (node : GntNode)
    (h1 : slotGet nibbles (highNib b) = some nib)
    (h2 : slotGet nib.nodes (lowNib b) = some node) :
    resolvePath nibbles b [] = some node := by
  rw [resolvePath.eq_1]
  simp only [h1, h2]

theorem resolvePath_step_cons (nibbles : List (Option GntNibble)) (b b2 : Nat)
    (rest2 : List Nat) (nib : GntNibble) (node : GntNode)
    (h1 : slotGet nibbles (highNib b) = some nib)
    (h2 : slotGet nib.nodes (lowNib b) = some node) :
    resolvePath nibbles b (b2 :: rest2) = resolvePath node.nibbles b2 rest2 := by
  rw [resolvePath.eq_1]
  simp only [h1, h2]

/-- gnt_search_walk returns the data field of the resolved terminal node
(occupied or not), and the sentinel 0 exactly when a slot on the path is
absent. -/
theorem gnt_search_walk_resolve (rest : List Nat) :
    ∀ (nibbles : List (Option GntNibble)) (b : Nat),
    gnt_search_walk nibbles b rest =
      (match resolvePath nibbles b rest with
       | none => 0
       | some node => node.data) := by
  induction rest with
  | nil =>
    intro nibbles b
    cases hnib : slotGet nibbles (highNib b) with
    | none => rw [gnt_search_walk_step_none _ _ _ hnib, resolvePath_step_none _ _ _ hnib]
    | some nib =>
      cases hnode : slotGet nib.nodes (lowNib b) with
      | none =>
        rw [gnt_search_walk_step_nodeNone _ _ _ _ hnib hnode,
          resolvePath_step_nodeNone _ _ _ _ hnib hnode]
      | some node =>
        rw [gnt_search_walk_step_nil _ _ _ _ hnib hnode,
          resolvePath_step_nil _ _ _ _ hnib hnode]
  | cons b2 rest2 ih =>
    intro nibbles b
    cases hnib : slotGet nibbles (highNib b) with
    | none => rw [gnt_search_walk_step_none _ _ _ hnib, resolvePath_step_none _ _ _ hnib]
    | some nib =>
      cases hnode : slotGet nib.nodes (lowNib b) with
      | none =>
        rw [gnt_search_walk_step_nodeNone _ _ _ _ hnib hnode,
          resolvePath_step_nodeNone _ _ _ _ hnib hnode]
      | some node =>
        rw [gnt_search_walk_step_cons _ _ _ _ _ _ hnib hnode,
          resolvePath_step_cons _ _ _ _ _ _ hnib hnode]
        exact ih node.nibbles b2

theorem gnt_search_walk_rep16 (b : Nat) (rest : List Nat) :
    gnt_search_walk (List.replicate 16 none) b rest = 0 :=
  gnt_search_walk_step_none _ _ _ (slotGet_replicate_none 16 _)

/-- Searching under a freshly written two-level slot assignment. -/
theorem gnt_search_walk_set2 (nibbles : List (Option GntNibble)) (b : Nat) (rest : List Nat)
    (nch : Nat) (nnodes : List (Option GntNode)) (node : GntNode)
    (hlen : nibbles.length = 16) (hlen2 : nnodes.length = 16) :
    gnt_search_walk (nibbles.set (highNib b)
        (some (.mk nch (nnodes.set (lowNib b) (some node))))) b rest
      = (match rest with
         | [] => node.data
         | b2 :: rest2 => gnt_search_walk node.nibbles b2 rest2) := by
  have h1 : slotGet (nibbles.set (highNib b)
      (some (GntNibble.mk nch (nnodes.set (lowNib b) (some node))))) (highNib b)
      = some (.mk nch (nnodes.set (lowNib b) (some node))) :=
    slotGet_set_self _ _ _ (by have := highNib_lt_16 b; omega)
  have h2 : slotGet (nnodes.set (lowNib b) (some node)) (lowNib b) = some node :=
    slotGet_set_self _ _ _ (by have := lowNib_lt_16 b; omega)
  cases rest with
  | nil => rw [gnt_search_walk_step_nil _ _ _ _ h1 (by simpa using h2)]
  | cons b2 rest2 => rw [gnt_search_walk_step_cons _ _ _ _ _ _ h1 (by simpa using h2)]

/-- After inserting a key, searching that same key finds the new payload. -/
theorem gnt_search_insert_self (rest : List Nat) :
    ∀ (children : Nat) (nibbles : List (Option GntNibble)) (b d : Nat) (dl : Bool),
    nibbles.length = 16 → wfNibList nibbles = true →
    gnt_search_walk (gnt_insert_walk children nibbles b rest d dl).2.1 b rest = d := by
  induction rest with
  | nil =>
    intro children nibbles b d dl hlen hwf
    cases hnib : slotGet nibbles (highNib b) with
    | none =>
      simp only [gnt_insert_walk, hnib, emptyNibble_eta, emptyNode_eta, GntNibble_children_mk,
        GntNibble_nodes_mk, GntNode_occupied_mk, GntNode_children_mk, GntNode_data_mk,
        GntNode_nibbles_mk, slotGet_replicate_none]
      rw [gnt_search_walk_set2 _ _ _ _ _ _ hlen length_rep16]
      rfl
    | some nib =>
      obtain ⟨nch, nnodes⟩ := nib
      obtain ⟨hn1, hn2, hn3⟩ := wfNib_elim _ _ (wfNib_slotGet_of_wfNibList nibbles _ _ hwf hnib)
      cases hnode : slotGet nnodes (lowNib b) with
      | none =>
        simp only [gnt_insert_walk, hnib, emptyNode_eta, GntNibble_children_mk,
          GntNibble_nodes_mk, GntNode_occupied_mk, GntNode_children_mk, GntNode_data_mk,
          GntNode_nibbles_mk, hnode]
        rw [gnt_search_walk_set2 _ _ _ _ _ _ hlen hn2]
        rfl
      | some node =>
        simp only [gnt_insert_walk, hnib, GntNibble_children_mk, GntNibble_nodes_mk, hnode]
        rw [gnt_search_walk_set2 _ _ _ _ _ _ hlen hn2]
        rfl
  | cons b2 rest2 ih =>
    intro children nibbles b d dl hlen hwf
    cases hnib : slotGet nibbles (highNib b) with
    | none =>
      simp only [gnt_insert_walk, hnib, emptyNibble_eta, emptyNode_eta, GntNibble_children_mk,
        GntNibble_nodes_mk, GntNode_occupied_mk, GntNode_children_mk, GntNode_data_mk,
        GntNode_nibbles_mk, slotGet_replicate_none]
      rw [gnt_search_walk_set2 _ _ _ _ _ _ hlen length_rep16]
      simp only [GntNode_nibbles_mk]
      exact ih 0 (List.replicate 16 none) b2 d dl length_rep16 wfNibList_rep16
    | some nib =>
      obtain ⟨nch, nnodes⟩ := nib
      obtain ⟨hn1, hn2, hn3⟩ := wfNib_elim _ _ (wfNib_slotGet_of_wfNibList nibbles _ _ hwf hnib)
      cases hnode : slotGet nnodes (lowNib b) with
      | none =>
        simp only [gnt_insert_walk, hnib, emptyNode_eta, GntNibble_children_mk,
          GntNibble_nodes_mk, GntNode_occupied_mk, GntNode_children_mk, GntNode_data_mk,
          GntNode_nibbles_mk, hnode]
        rw [gnt_search_walk_set2 _ _ _ _ _ _ hlen hn2]
        simp only [GntNode_nibbles_mk]
        exact ih 0 (List.replicate 16 none) b2 d dl length_rep16 wfNibList_rep16
      | some node =>
        obtain ⟨occ, ndch, ndd, ndnibs⟩ := node
        obtain ⟨hm1, hm2, hm3⟩ := wfNode_elim _ _ _ _
          (wfNode_slotGet_of_wfNodeList _ _ _ hn3 hnode)
        simp only [gnt_insert_walk, hnib, GntNibble_children_mk, GntNibble_nodes_mk, hnode,
          GntNode_occupied_mk, GntNode_children_mk, GntNode_data_mk, GntNode_nibbles_mk]
        rw [gnt_search_walk_set2 _ _ _ _ _ _ hlen hn2]
        simp only [GntNode_nibbles_mk]
        exact ih ndch ndnibs b2 d dl hm2 hm3

/-- Searching a key with a different first byte is unaffected by a two-level
slot write for the inserted key. -/
theorem gnt_search_walk_set2_ne (nibbles : List (Option GntNibble)) (b b2 : Nat)
    (rest2 : List Nat) (nch : Nat) (nnodes : List (Option GntNode)) (node : GntNode)
    (hlen : nibbles.length = 16) (hlen2 : nnodes.length = 16)
    (hb : b < 256) (hb2 : b2 < 256) (hne : b ≠ b2)
    (horig : (∃ nch0, slotGet nibbles (highNib b) = some (.mk nch0 nnodes))
      ∨ (slotGet nibbles (highNib b) = none ∧ nnodes = List.replicate 16 none)) :
    gnt_search_walk (nibbles.set (highNib b)
        (some (.mk nch (nnodes.set (lowNib b) (some node))))) b2 rest2
      = gnt_search_walk nibbles b2 rest2 := by
  by_cases hhi : highNib b = highNib b2
  · -- same high nibble, so the low nibbles must differ
    have hlo : lowNib b ≠ lowNib b2 := by
      simp only [highNib, lowNib] at hhi ⊢
      rw [Nat.mod_eq_of_lt hb, Nat.mod_eq_of_lt hb2] at hhi
      omega
    have hslot : slotGet (nibbles.set (highNib b)
        (some (GntNibble.mk nch (nnodes.set (lowNib b) (some node))))) (highNib b2)
        = some (GntNibble.mk nch (nnodes.set (lowNib b) (some node))) := by
      rw [← hhi]
      exact slotGet_set_self _ _ _ (by have := highNib_lt_16 b; omega)
    have hinner : slotGet (nnodes.set (lowNib b) (some node)) (lowNib b2)
        = slotGet nnodes (lowNib b2) := slotGet_set_ne _ _ _ _ hlo
    rcases horig with ⟨nch0, horig⟩ | ⟨horig, hrep⟩
    · have horig2 : slotGet nibbles (highNib b2) = some (GntNibble.mk nch0 nnodes) := by
        rw [← hhi]; exact horig
      cases hnode2 : slotGet nnodes (lowNib b2) with
      | none =>
        rw [gnt_search_walk_step_nodeNone _ _ _ _ hslot
            (by rw [GntNibble_nodes_mk, hinner]; exact hnode2),
          gnt_search_walk_step_nodeNone _ _ _ _ horig2
            (by rw [GntNibble_nodes_mk]; exact hnode2)]
      | some node2 =>
        cases rest2 with
        | nil =>
          rw [gnt_search_walk_step_nil _ _ _ _ hslot
              (by rw [GntNibble_nodes_mk, hinner]; exact hnode2),
            gnt_search_walk_step_nil _ _ _ _ horig2
              (by rw [GntNibble_nodes_mk]; exact hnode2)]
        | cons b3 rest3 =>
          rw [gnt_search_walk_step_cons _ _ _ _ _ _ hslot
              (by rw [GntNibble_nodes_mk, hinner]; exact hnode2),
            gnt_search_walk_step_cons _ _ _ _ _ _ horig2
              (by rw [GntNibble_nodes_mk]; exact hnode2)]
    · have horig2 : slotGet nibbles (highNib b2) = none := by
        rw [← hhi]; exact horig
      have hnone : slotGet (nnodes.set (lowNib b) (some node)) (lowNib b2) = none := by
        rw [hinner, hrep]
        exact slotGet_replicate_none 16 _
      rw [gnt_search_walk_step_nodeNone _ _ _ _ hslot
          (by rw [GntNibble_nodes_mk]; exact hnone),
        gnt_search_walk_step_none _ _ _ horig2]
  · -- different high nibble: the written root slot is not on the search path
    have hslot : slotGet (nibbles.set (highNib b)
        (some (GntNibble.mk nch (nnodes.set (lowNib b) (some node))))) (highNib b2)
        = slotGet nibbles (highNib b2) := slotGet_set_ne _ _ _ _ hhi
    cases hnib2 : slotGet nibbles (highNib b2) with
    | none =>
      rw [gnt_search_walk_step_none _ _ _ (hslot.trans hnib2),
        gnt_search_walk_step_none _ _ _ hnib2]
    | some nib2 =>
      cases hnode2 : slotGet nib2.nodes (lowNib b2) with
      | none =>
        rw [gnt_search_walk_step_nodeNone _ _ _ _ (hslot.trans hnib2) hnode2,
          gnt_search_walk_step_nodeNone _ _ _ _ hnib2 hnode2]
      | some node2 =>
        cases rest2 with
        | nil =>
          rw [gnt_search_walk_step_nil _ _ _ _ (hslot.trans hnib2) hnode2,
            gnt_search_walk_step_nil _ _ _ _ hnib2 hnode2]
        | cons b3 rest3 =>
          rw [gnt_search_walk_step_cons _ _ _ _ _ _ (hslot.trans hnib2) hnode2,
            gnt_search_walk_step_cons _ _ _ _ _ _ hnib2 hnode2]

/-- Inserting one key never changes the search result of any other key
(keys again given by their byte sequences; byte values are below 256 as they
have C type uint8_t). -/
theorem gnt_search_insert_other (rest2 : List Nat) :
    ∀ (rest : List Nat) (children : Nat) (nibbles : List (Option GntNibble)) (b b2 d : Nat)
      (dl : Bool),
    nibbles.length = 16 → wfNibList nibbles = true →
    (∀ x ∈ b :: rest, x < 256) → (∀ x ∈ b2 :: rest2, x < 256) →
    b :: rest ≠ b2 :: rest2 →
    gnt_search_walk (gnt_insert_walk children nibbles b rest d dl).2.1 b2 rest2 =
      gnt_search_walk nibbles b2 rest2 := by
  induction rest2 with
  | nil =>
    intro rest children nibbles b b2 d dl hlen hwf hball hball2 hne
    have hb : b < 256 := hball b (by simp)
    have hb2 : b2 < 256 := hball2 b2 (by simp)
    by_cases hbb : b = b2
    · subst hbb
      obtain ⟨c2, crest, rfl⟩ : ∃ c2 crest, rest = c2 :: crest := by
        cases rest with
        | nil => exact absurd rfl hne
        | cons c2 crest => exact ⟨c2, crest, rfl⟩
      cases hnib : slotGet nibbles (highNib b) with
      | none =>
        simp only [gnt_insert_walk, hnib, emptyNibble_eta, emptyNode_eta, GntNibble_children_mk,
          GntNibble_nodes_mk, GntNode_occupied_mk, GntNode_children_mk, GntNode_data_mk,
          GntNode_nibbles_mk, slotGet_replicate_none]
        rw [gnt_search_walk_set2 _ _ _ _ _ _ hlen length_rep16,
          gnt_search_walk_step_none _ _ _ hnib]
        rfl
      | some nib =>
        obtain ⟨nch0, nnodes⟩ := nib
        obtain ⟨hn1, hn2, hn3⟩ := wfNib_elim _ _ (wfNib_slotGet_of_wfNibList nibbles _ _ hwf hnib)
        cases hnode : slotGet nnodes (lowNib b) with
        | none =>
          simp only [gnt_insert_walk, hnib, emptyNode_eta, GntNibble_children_mk,
            GntNibble_nodes_mk, GntNode_occupied_mk, GntNode_children_mk, GntNode_data_mk,
            GntNode_nibbles_mk, hnode]
          rw [gnt_search_walk_set2 _ _ _ _ _ _ hlen hn2,
            gnt_search_walk_step_nodeNone _ _ _ _ hnib (by rw [GntNibble_nodes_mk]; exact hnode)]
          rfl
        | some node =>
          simp only [gnt_insert_walk, hnib, GntNibble_children_mk, GntNibble_nodes_mk, hnode,
            GntNode_occupied_mk, GntNode_children_mk, GntNode_data_mk, GntNode_nibbles_mk]
          rw [gnt_search_walk_set2 _ _ _ _ _ _ hlen hn2,
            gnt_search_walk_step_nil _ _ _ _ hnib (by rw [GntNibble_nodes_mk]; exact hnode)]
          rfl
    · -- different first byte
      cases hnib : slotGet nibbles (highNib b) with
      | none =>
        cases rest with
        | nil =>
          simp only [gnt_insert_walk, hnib, emptyNibble_eta, emptyNode_eta,
            GntNibble_children_mk, GntNibble_nodes_mk, GntNode_occupied_mk, GntNode_children_mk,
            GntNode_data_mk, GntNode_nibbles_mk, slotGet_replicate_none]
          exact gnt_search_walk_set2_ne nibbles b b2 [] _ _ _ hlen length_rep16 hb hb2 hbb
            (Or.inr ⟨hnib, rfl⟩)
        | cons c2 crest =>
          simp only [gnt_insert_walk, hnib, emptyNibble_eta, emptyNode_eta,
            GntNibble_children_mk, GntNibble_nodes_mk, GntNode_occupied_mk, GntNode_children_mk,
            GntNode_data_mk, GntNode_nibbles_mk, slotGet_replicate_none]
          exact gnt_search_walk_set2_ne nibbles b b2 [] _ _ _ hlen length_rep16 hb hb2 hbb
            (Or.inr ⟨hnib, rfl⟩)
      | some nib =>
        obtain ⟨nch0, nnodes⟩ := nib
        obtain ⟨hn1, hn2, hn3⟩ := wfNib_elim _ _ (wfNib_slotGet_of_wfNibList nibbles _ _ hwf hnib)
        cases hnode : slotGet nnodes (lowNib b) with
        | none =>
          cases rest with
          | nil =>
            simp only [gnt_insert_walk, hnib, emptyNode_eta, GntNibble_children_mk,
              GntNibble_nodes_mk, GntNode_occupied_mk, GntNode_children_mk, GntNode_data_mk,
              GntNode_nibbles_mk, hnode]
            exact gnt_search_walk_set2_ne nibbles b b2 [] _ _ _ hlen hn2 hb hb2 hbb
              (Or.inl ⟨nch0, hnib⟩)
          | cons c2 crest =>
            simp only [gnt_insert_walk, hnib, emptyNode_eta, GntNibble_children_mk,
              GntNibble_nodes_mk, GntNode_occupied_mk, GntNode_children_mk, GntNode_data_mk,
              GntNode_nibbles_mk, hnode]
            exact gnt_search_walk_set2_ne nibbles b b2 [] _ _ _ hlen hn2 hb hb2 hbb
              (Or.inl ⟨nch0, hnib⟩)
        | some node =>
          cases rest with
          | nil =>
            simp only [gnt_insert_walk, hnib, GntNibble_children_mk, GntNibble_nodes_mk, hnode,
              GntNode_occupied_mk, GntNode_children_mk, GntNode_data_mk, GntNode_nibbles_mk]
            exact gnt_search_walk_set2_ne nibbles b b2 [] _ _ _ hlen hn2 hb hb2 hbb
              (Or.inl ⟨nch0, hnib⟩)
          | cons c2 crest =>
            simp only [gnt_insert_walk, hnib, GntNibble_children_mk, GntNibble_nodes_mk, hnode,
              GntNode_occupied_mk, GntNode_children_mk, GntNode_data_mk, GntNode_nibbles_mk]
            exact gnt_search_walk_set2_ne nibbles b b2 [] _ _ _ hlen hn2 hb hb2 hbb
              (Or.inl ⟨nch0, hnib⟩)
  | cons b3 rest3 ih =>
    intro rest children nibbles b b2 d dl hlen hwf hball hball2 hne
    have hb : b < 256 := hball b (by simp)
    have hb2 : b2 < 256 := hball2 b2 (by simp)
    by_cases hbb : b = b2
    · subst hbb
      have hne2 : rest ≠ b3 :: rest3 := fun h => hne (by rw [h])
      cases hnib : slotGet nibbles (highNib b) with
      | none =>
        cases rest with
        | nil =>
          simp only [gnt_insert_walk, hnib, emptyNibble_eta, emptyNode_eta,
            GntNibble_children_mk, GntNibble_nodes_mk, GntNode_occupied_mk, GntNode_children_mk,
            GntNode_data_mk, GntNode_nibbles_mk, slotGet_replicate_none]
          rw [gnt_search_walk_set2 _ _ _ _ _ _ hlen length_rep16]
          simp only [GntNode_nibbles_mk]
          rw [gnt_search_walk_rep16, gnt_search_walk_step_none _ _ _ hnib]
        | cons c2 crest =>
          simp only [gnt_insert_walk, hnib, emptyNibble_eta, emptyNode_eta,
            GntNibble_children_mk, GntNibble_nodes_mk, GntNode_occupied_mk, GntNode_children_mk,
            GntNode_data_mk, GntNode_nibbles_mk, slotGet_replicate_none]
          rw [gnt_search_walk_set2 _ _ _ _ _ _ hlen length_rep16]
          simp only [GntNode_nibbles_mk]
          rw [ih crest 0 (List.replicate 16 none) c2 b3 d dl length_rep16 wfNibList_rep16
              (fun x hx => hball x (by simpa using Or.inr hx))
              (fun x hx => hball2 x (by simpa using Or.inr hx))
              (by simpa using hne2),
            gnt_search_walk_rep16, gnt_search_walk_step_none _ _ _ hnib]
      | some nib =>
        obtain ⟨nch0, nnodes⟩ := nib
        obtain ⟨hn1, hn2, hn3⟩ := wfNib_elim _ _ (wfNib_slotGet_of_wfNibList nibbles _ _ hwf hnib)
        cases hnode : slotGet nnodes (lowNib b) with
        | none =>
          cases rest with
          | nil =>
            simp only [gnt_insert_walk, hnib, emptyNode_eta, GntNibble_children_mk,
              GntNibble_nodes_mk, GntNode_occupied_mk, GntNode_children_mk, GntNode_data_mk,
              GntNode_nibbles_mk, hnode]
            rw [gnt_search_walk_set2 _ _ _ _ _ _ hlen hn2]
            simp only [GntNode_nibbles_mk]
            rw [gnt_search_walk_rep16,
              gnt_search_walk_step_nodeNone _ _ _ _ hnib
                (by rw [GntNibble_nodes_mk]; exact hnode)]
          | cons c2 crest =>
            simp only [gnt_insert_walk, hnib, emptyNode_eta, GntNibble_children_mk,
              GntNibble_nodes_mk, GntNode_occupied_mk, GntNode_children_mk, GntNode_data_mk,
              GntNode_nibbles_mk, hnode]
            rw [gnt_search_walk_set2 _ _ _ _ _ _ hlen hn2]
            simp only [GntNode_nibbles_mk]
            rw [ih crest 0 (List.replicate 16 none) c2 b3 d dl length_rep16 wfNibList_rep16
                (fun x hx => hball x (by simpa using Or.inr hx))
                (fun x hx => hball2 x (by simpa using Or.inr hx))
                (by simpa using hne2),
              gnt_search_walk_rep16,
              gnt_search_walk_step_nodeNone _ _ _ _ hnib
                (by rw [GntNibble_nodes_mk]; exact hnode)]
        | some node =>
          obtain ⟨occ, ndch, ndd, ndnibs⟩ := node
          obtain ⟨hm1, hm2, hm3⟩ := wfNode_elim _ _ _ _
            (wfNode_slotGet_of_wfNodeList _ _ _ hn3 hnode)
          cases rest with
          | nil =>
            simp only [gnt_insert_walk, hnib, GntNibble_children_mk, GntNibble_nodes_mk, hnode,
              GntNode_occupied_mk, GntNode_children_mk, GntNode_data_mk, GntNode_nibbles_mk]
            rw [gnt_search_walk_set2 _ _ _ _ _ _ hlen hn2]
            simp only [GntNode_nibbles_mk]
            rw [gnt_search_walk_step_cons _ _ _ _ _ _ hnib
                (by rw [GntNibble_nodes_mk]; exact hnode)]
            rfl
          | cons c2 crest =>
            simp only [gnt_insert_walk, hnib, GntNibble_children_mk, GntNibble_nodes_mk, hnode,
              GntNode_occupied_mk, GntNode_children_mk, GntNode_data_mk, GntNode_nibbles_mk]
            rw [gnt_search_walk_set2 _ _ _ _ _ _ hlen hn2]
            simp only [GntNode_nibbles_mk]
            rw [ih crest ndch ndnibs c2 b3 d dl hm2 hm3
                (fun x hx => hball x (by simpa using Or.inr hx))
                (fun x hx => hball2 x (by simpa using Or.inr hx))
                (by simpa using hne2),
              gnt_search_walk_step_cons _ _ _ _ _ _ hnib
                (by rw [GntNibble_nodes_mk]; exact hnode)]
            rfl
    · -- different first byte
      cases hnib : slotGet nibbles (highNib b) with
      | none =>
        cases rest with
        | nil =>
          simp only [gnt_insert_walk, hnib, emptyNibble_eta, emptyNode_eta,
            GntNibble_children_mk, GntNibble_nodes_mk, GntNode_occupied_mk, GntNode_children_mk,
            GntNode_data_mk, GntNode_nibbles_mk, slotGet_replicate_none]
          exact gnt_search_walk_set2_ne nibbles b b2 _ _ _ _ hlen length_rep16 hb hb2 hbb
            (Or.inr ⟨hnib, rfl⟩)
        | cons c2 crest =>
          simp only [gnt_insert_walk, hnib, emptyNibble_eta, emptyNode_eta,
            GntNibble_children_mk, GntNibble_nodes_mk, GntNode_occupied_mk, GntNode_children_mk,
            GntNode_data_mk, GntNode_nibbles_mk, slotGet_replicate_none]
          exact gnt_search_walk_set2_ne nibbles b b2 _ _ _ _ hlen length_rep16 hb hb2 hbb
            (Or.inr ⟨hnib, rfl⟩)
      | some nib =>
        obtain ⟨nch0, nnodes⟩ := nib
        obtain ⟨hn1, hn2, hn3⟩ := wfNib_elim _ _ (wfNib_slotGet_of_wfNibList nibbles _ _ hwf hnib)
        cases hnode : slotGet nnodes (lowNib b) with
        | none =>
          cases rest with
          | nil =>
            simp only [gnt_insert_walk, hnib, emptyNode_eta, GntNibble_children_mk,
              GntNibble_nodes_mk, GntNode_occupied_mk, GntNode_children_mk, GntNode_data_mk,
              GntNode_nibbles_mk, hnode]
            exact gnt_search_walk_set2_ne nibbles b b2 _ _ _ _ hlen hn2 hb hb2 hbb
              (Or.inl ⟨nch0, hnib⟩)
          | cons c2 crest =>
            simp only [gnt_insert_walk, hnib, emptyNode_eta, GntNibble_children_mk,
              GntNibble_nodes_mk, GntNode_occupied_mk, GntNode_children_mk, GntNode_data_mk,
              GntNode_nibbles_mk, hnode]
            exact gnt_search_walk_set2_ne nibbles b b2 _ _ _ _ hlen hn2 hb hb2 hbb
              (Or.inl ⟨nch0, hnib⟩)
        | some node =>
          cases rest with
          | nil =>
            simp only [gnt_insert_walk, hnib, GntNibble_children_mk, GntNibble_nodes_mk, hnode,
              GntNode_occupied_mk, GntNode_children_mk, GntNode_data_mk, GntNode_nibbles_mk]
            exact gnt_search_walk_set2_ne nibbles b b2 _ _ _ _ hlen hn2 hb hb2 hbb
              (Or.inl ⟨nch0, hnib⟩)
          | cons c2 crest =>
            simp only [gnt_insert_walk, hnib, GntNibble_children_mk, GntNibble_nodes_mk, hnode,
              GntNode_occupied_mk, GntNode_children_mk, GntNode_data_mk, GntNode_nibbles_mk]
            exact gnt_search_walk_set2_ne nibbles b b2 _ _ _ _ hlen hn2 hb hb2 hbb
              (Or.inl ⟨nch0, hnib⟩)

/-- The deallocator calls an insert makes: exactly one, on the old payload,
when the terminal node existed and was occupied and a deallocator is
configured; none otherwise. -/
theorem gnt_insert_walk_trace (rest : List Nat) :
    ∀ (children : Nat) (nibbles : List (Option GntNibble)) (b d : Nat) (dl : Bool),
    (gnt_insert_walk children nibbles b rest d dl).2.2 =
      (match resolvePath nibbles b rest with
       | some node => if node.occupied && dl then [node.data] else []
       | none => []) := by
  induction rest with
  | nil =>
    intro children nibbles b d dl
    cases hnib : slotGet nibbles (highNib b) with
    | none =>
      simp only [gnt_insert_walk, hnib, emptyNibble_eta, emptyNode_eta, GntNibble_children_mk,
        GntNibble_nodes_mk, GntNode_occupied_mk, GntNode_children_mk, GntNode_data_mk,
        GntNode_nibbles_mk, slotGet_replicate_none, resolvePath_step_none _ _ _ hnib,
        Bool.false_and, Bool.false_eq_true, if_false]
    | some nib =>
      cases hnode : slotGet nib.nodes (lowNib b) with
      | none =>
        simp only [gnt_insert_walk, hnib, emptyNode_eta, GntNibble_children_mk,
          GntNibble_nodes_mk, GntNode_occupied_mk, GntNode_children_mk, GntNode_data_mk,
          GntNode_nibbles_mk, hnode, resolvePath_step_nodeNone _ _ _ _ hnib hnode,
          Bool.false_and, Bool.false_eq_true, if_false]
      | some node =>
        simp only [gnt_insert_walk, hnib, GntNibble_children_mk, GntNibble_nodes_mk, hnode,
          resolvePath_step_nil _ _ _ _ hnib hnode]
  | cons b2 rest2 ih =>
    intro children nibbles b d dl
    cases hnib : slotGet nibbles (highNib b) with
    | none =>
      have hrep : slotGet (List.replicate 16 (none : Option GntNibble)) (highNib b2) = none :=
        slotGet_replicate_none 16 _
      simp only [gnt_insert_walk, hnib, emptyNibble_eta, emptyNode_eta, GntNibble_children_mk,
        GntNibble_nodes_mk, GntNode_occupied_mk, GntNode_children_mk, GntNode_data_mk,
        GntNode_nibbles_mk, slotGet_replicate_none, resolvePath_step_none _ _ _ hnib,
        ih, resolvePath_step_none _ _ _ hrep]
    | some nib =>
      cases hnode : slotGet nib.nodes (lowNib b) with
      | none =>
        have hrep : slotGet (List.replicate 16 (none : Option GntNibble)) (highNib b2) = none :=
          slotGet_replicate_none 16 _
        simp only [gnt_insert_walk, hnib, emptyNode_eta, GntNibble_children_mk,
          GntNibble_nodes_mk, GntNode_occupied_mk, GntNode_children_mk, GntNode_data_mk,
          GntNode_nibbles_mk, hnode, resolvePath_step_nodeNone _ _ _ _ hnib hnode,
          ih, resolvePath_step_none _ _ _ hrep]
      | some node =>
        simp only [gnt_insert_walk, hnib, GntNibble_children_mk, GntNibble_nodes_mk, hnode,
          GntNode_occupied_mk, GntNode_children_mk, GntNode_data_mk, GntNode_nibbles_mk,
          resolvePath_step_cons _ _ _ _ _ _ hnib hnode, ih]

theorem countSome_set_none_of_none (l : List (Option α)) (i : Nat)
    (h : slotGet l i = none) : countSome (l.set i none) = countSome l := by
  induction l generalizing i with
  | nil => rfl
  | cons a rest ih =>
    cases i with
    | zero =>
      cases a with
      | none => simp [List.set]
      | some y => simp [slotGet_cons_zero] at h
    | succ i =>
      have := ih i (by simpa [slotGet_cons_succ] using h)
      cases a <;> simp [List.set, countSome, this]

theorem highNib_mod (b : Nat) : highNib (b % 256) = highNib b := by
  simp only [highNib]
  omega

/-! ### Delete: preservation of the child-count invariant

The recursion of _gnt_delete_recursive preserves well-formedness, array
length and the number of non-NULL slots of the array it operates on, and a
CONTINUE outcome designates (through the returned byte) a slot holding a
now-empty nibble layer that the caller frees. -/

theorem gnt_delete_recursive_wf (bytes : List Nat) :
    ∀ (nibbles : List (Option GntNibble)) (dl : Bool)
      (status : DStatus) (byteOpt : Option Nat) (nibbles2 : List (Option GntNibble))
      (trace : List Nat),
    wfNibList nibbles = true → nibbles.length = 16 →
    gnt_delete_recursive nibbles bytes dl = some (status, byteOpt, nibbles2, trace) →
    wfNibList nibbles2 = true ∧ nibbles2.length = 16
      ∧ countSome nibbles2 = countSome nibbles
      ∧ (status = .CONTINUE → ∃ cb nib2, byteOpt = some cb ∧
          slotGet nibbles2 (highNib cb) = some nib2 ∧ nib2.children = 0) := by
  induction bytes with
  | nil =>
    intro nibbles dl status byteOpt nibbles2 trace hwf hlen h
    rw [gnt_delete_recursive] at h
    simp only [Option.some.injEq, Prod.mk.injEq] at h
    obtain ⟨h1, h2, h3, h4⟩ := h
    subst h1; subst h2; subst h3; subst h4
    refine ⟨hwf, hlen, rfl, ?_⟩
    intro hcon
    cases hcon
  | cons b rest ih =>
    intro nibbles dl status byteOpt nibbles2 trace hwf hlen h
    have hhi : highNib b < 16 := highNib_lt_16 b
    have hlo : lowNib b < 16 := lowNib_lt_16 b
    cases hnib : slotGet nibbles (highNib b) with
    | none =>
      simp only [gnt_delete_recursive, hnib] at h
      exact Option.noConfusion h
    | some nib =>
      obtain ⟨nch, nnodes⟩ := nib
      obtain ⟨hn1, hn2, hn3⟩ := wfNib_elim _ _ (wfNib_slotGet_of_wfNibList nibbles _ _ hwf hnib)
      cases hnode : slotGet nnodes (lowNib b) with
      | none =>
        simp only [gnt_delete_recursive, hnib, GntNibble_nodes_mk, hnode] at h
        exact Option.noConfusion h
      | some node =>
        obtain ⟨occ, ndch, ndd, ndnibs⟩ := node
        obtain ⟨hm1, hm2, hm3⟩ := wfNode_elim _ _ _ _
          (wfNode_slotGet_of_wfNodeList _ _ _ hn3 hnode)
        -- facts reusable in every branch
        have hchle : countSome nnodes ≤ 16 := by
          have := countSome_le_length nnodes
          omega
        have hchpos : 0 < countSome nnodes := countSome_pos_of_slotGet_some _ _ _ hnode
        have hdec : (nch + 255) % 256 = nch - 1 := by omega
        cases hrec : gnt_delete_recursive ndnibs rest dl with
        | none =>
          simp only [gnt_delete_recursive, hnib, GntNibble_nodes_mk, hnode,
            GntNode_nibbles_mk, hrec] at h
          exact Option.noConfusion h
        | some r =>
          obtain ⟨status1, byteOpt1, nodeNibs1, trace1⟩ := r
          obtain ⟨ihwf, ihlen, ihcount, ihcont⟩ :=
            ih ndnibs dl status1 byteOpt1 nodeNibs1 trace1 hm3 hm2 hrec
          cases status1 with
          | STOP =>
            simp only [gnt_delete_recursive, hnib, GntNibble_nodes_mk, hnode,
              GntNode_nibbles_mk, GntNode_occupied_mk, GntNode_children_mk, GntNode_data_mk,
              hrec, reduceIte, Option.some.injEq, Prod.mk.injEq] at h
            obtain ⟨h1, h2, h3, h4⟩ := h
            subst h1; subst h2; subst h3; subst h4
            refine ⟨?_, ?_, ?_, ?_⟩
            · refine wfNibList_set_some _ _ _ hwf (wfNib_intro _ _ ?_ ?_ ?_)
              · rw [countSome_set_some_of_some _ _ _ _ hnode]; exact hn1
              · rw [List.length_set, hn2]
              · exact wfNodeList_set_some _ _ _ hn3
                  (wfNode_intro _ _ _ _ (by rw [hm1, ihcount]) ihlen ihwf)
            · rw [List.length_set, hlen]
            · rw [countSome_set_some_of_some _ _ _ _ hnib]
            · intro hcon; cases hcon
          | END =>
            by_cases hch : ndch = 0
            · -- terminal node has no children: the node itself is freed
              by_cases hnz : (nch + 255) % 256 = 0
              · -- the nibble layer also became empty: CONTINUE
                simp [gnt_delete_recursive, hnib, hnode, hrec, hch, hnz] at h
                obtain ⟨h1, h2, h3, h4⟩ := h
                subst h1; subst h2; subst h3; subst h4
                refine ⟨?_, ?_, ?_, ?_⟩
                · refine wfNibList_set_some _ _ _ hwf (wfNib_intro _ _ ?_ ?_ ?_)
                  · have hset := countSome_set_none_of_some nnodes (lowNib b) _ hnode
                    omega
                  · rw [List.length_set, hn2]
                  · exact wfNodeList_set_none _ _ hn3
                · rw [List.length_set, hlen]
                · rw [countSome_set_some_of_some _ _ _ _ hnib]
                · intro _
                  refine ⟨b % 256, GntNibble.mk 0 (nnodes.set (lowNib b) none), rfl, ?_, rfl⟩
                  rw [highNib_mod]
                  exact slotGet_set_self _ _ _ (by omega)
              · -- siblings remain in the nibble layer: STOP
                simp [gnt_delete_recursive, hnib, hnode, hrec, hch, hnz] at h
                obtain ⟨h1, h2, h3, h4⟩ := h
                subst h1; subst h2; subst h3; subst h4
                refine ⟨?_, ?_, ?_, ?_⟩
                · refine wfNibList_set_some _ _ _ hwf (wfNib_intro _ _ ?_ ?_ ?_)
                  · have hset := countSome_set_none_of_some nnodes (lowNib b) _ hnode
                    omega
                  · rw [List.length_set, hn2]
                  · exact wfNodeList_set_none _ _ hn3
                · rw [List.length_set, hlen]
                · rw [countSome_set_some_of_some _ _ _ _ hnib]
                · intro hcon; cases hcon
            · -- terminal node keeps children: only occupancy is cleared, STOP
              simp [gnt_delete_recursive, hnib, hnode, hrec, hch] at h
              obtain ⟨h1, h2, h3, h4⟩ := h
              subst h1; subst h2; subst h3; subst h4
              refine ⟨?_, ?_, ?_, ?_⟩
              · refine wfNibList_set_some _ _ _ hwf (wfNib_intro _ _ ?_ ?_ ?_)
                · rw [countSome_set_some_of_some _ _ _ _ hnode]; exact hn1
                · rw [List.length_set, hn2]
                · exact wfNodeList_set_some _ _ _ hn3
                    (wfNode_intro _ _ _ _ (by rw [hm1, ihcount]) ihlen ihwf)
              · rw [List.length_set, hlen]
              · rw [countSome_set_some_of_some _ _ _ _ hnib]
              · intro hcon; cases hcon
          | CONTINUE =>
            obtain ⟨cb, nib2, hbo, hslot2, hnib2ch⟩ := ihcont rfl
            subst hbo
            have hpos1 : 0 < countSome nodeNibs1 :=
              countSome_pos_of_slotGet_some _ _ _ hslot2
            have hndpos : ndch ≠ 0 := by
              rw [hm1, ← ihcount]
              omega
            have hcount2 : countSome (nodeNibs1.set (highNib cb) none) + 1
                = countSome nodeNibs1 := by
              obtain ⟨nib2v, hnib2v⟩ : ∃ v, slotGet nodeNibs1 (highNib cb) = some v :=
                ⟨nib2, hslot2⟩
              exact countSome_set_none_of_some _ _ _ hnib2v
            by_cases hch1 : ndch - 1 = 0
            · by_cases hnz : (nch + 255) % 256 = 0
              · simp [gnt_delete_recursive, hnib, hnode, hrec, hndpos, hch1, hnz] at h
                obtain ⟨h1, h2, h3, h4⟩ := h
                subst h1; subst h2; subst h3; subst h4
                refine ⟨?_, ?_, ?_, ?_⟩
                · refine wfNibList_set_some _ _ _ hwf (wfNib_intro _ _ ?_ ?_ ?_)
                  · have hset := countSome_set_none_of_some nnodes (lowNib b) _ hnode
                    omega
                  · rw [List.length_set, hn2]
                  · exact wfNodeList_set_none _ _ hn3
                · rw [List.length_set, hlen]
                · rw [countSome_set_some_of_some _ _ _ _ hnib]
                · intro _
                  refine ⟨b % 256, GntNibble.mk 0 (nnodes.set (lowNib b) none), rfl, ?_, rfl⟩
                  rw [highNib_mod]
                  exact slotGet_set_self _ _ _ (by omega)
              · simp [gnt_delete_recursive, hnib, hnode, hrec, hndpos, hch1, hnz] at h
                obtain ⟨h1, h2, h3, h4⟩ := h
                subst h1; subst h2; subst h3; subst h4
                refine ⟨?_, ?_, ?_, ?_⟩
                · refine wfNibList_set_some _ _ _ hwf (wfNib_intro _ _ ?_ ?_ ?_)
                  · have hset := countSome_set_none_of_some nnodes (lowNib b) _ hnode
                    omega
                  · rw [List.length_set, hn2]
                  · exact wfNodeList_set_none _ _ hn3
                · rw [List.length_set, hlen]
                · rw [countSome_set_some_of_some _ _ _ _ hnib]
                · intro hcon; cases hcon
            · -- the node keeps other children: STOP after freeing the slot
              simp [gnt_delete_recursive, hnib, hnode, hrec, hndpos, hch1] at h
              obtain ⟨h1, h2, h3, h4⟩ := h
              subst h1; subst h2; subst h3; subst h4
              refine ⟨?_, ?_, ?_, ?_⟩
              · refine wfNibList_set_some _ _ _ hwf (wfNib_intro _ _ ?_ ?_ ?_)
                · rw [countSome_set_some_of_some _ _ _ _ hnode]; exact hn1
                · rw [List.length_set, hn2]
                · refine wfNodeList_set_some _ _ _ hn3 (wfNode_intro _ _ _ _ ?_ ?_ ?_)
                  · rw [hm1, ← ihcount]
                    omega
                  · rw [List.length_set, ihlen]
                  · exact wfNibList_set_none _ _ ihwf
              · rw [List.length_set, hlen]
              · rw [countSome_set_some_of_some _ _ _ _ hnib]
              · intro hcon; cases hcon

theorem wfTrie_elim (t : GntTrie) (h : wfTrie t = true) :
    t.children = countSome t.nibbles ∧ t.nibbles.length = 16
      ∧ wfNibList t.nibbles = true := by
  have := h
  simp [wfTrie] at this
  exact ⟨this.1.1, this.1.2, this.2⟩

theorem wfTrie_intro (t : GntTrie) (h1 : t.children = countSome t.nibbles)
    (h2 : t.nibbles.length = 16) (h3 : wfNibList t.nibbles = true) :
    wfTrie t = true := by
  simp [wfTrie, h1, h2, h3]

/-- gnt_insert preserves the trie invariant. -/
theorem gnt_insert_wfTrie (t : GntTrie) (bytes : List Nat) (d : Nat) (dl : Bool)
    (t2 : GntTrie) (tr : List Nat) (hwf : wfTrie t = true)
    (h : gnt_insert t bytes d dl = some (t2, tr)) : wfTrie t2 = true := by
  obtain ⟨h1, h2, h3⟩ := wfTrie_elim t hwf
  cases bytes with
  | nil => exact Option.noConfusion h
  | cons b rest =>
    simp only [gnt_insert, Option.some.injEq, Prod.mk.injEq] at h
    obtain ⟨he, _⟩ := h
    obtain ⟨hw1, hw2, hw3⟩ := gnt_insert_walk_wf rest t.children t.nibbles b d dl h1 h2 h3
    rw [← he]
    exact wfTrie_intro _ hw1 hw2 hw3

/-- gnt_delete preserves the trie invariant whenever it is defined. -/
theorem gnt_delete_wfTrie (t : GntTrie) (bytes : List Nat) (dl : Bool)
    (t2 : GntTrie) (tr : List Nat) (hwf : wfTrie t = true)
    (h : gnt_delete t bytes dl = some (t2, tr)) : wfTrie t2 = true := by
  obtain ⟨h1, h2, h3⟩ := wfTrie_elim t hwf
  cases hrec : gnt_delete_recursive t.nibbles bytes dl with
  | none =>
    rw [gnt_delete, hrec] at h
    exact Option.noConfusion h
  | some r =>
    obtain ⟨status, byteOpt, nibbles1, trace⟩ := r
    obtain ⟨rwf, rlen, rcount, rcont⟩ :=
      gnt_delete_recursive_wf bytes t.nibbles dl status byteOpt nibbles1 trace h3 h2 hrec
    simp only [gnt_delete, hrec] at h
    cases status with
    | END =>
      rw [if_neg (fun hx => DStatus.noConfusion hx)] at h
      injection h with h
      injection h with ha hb
      rw [← ha]
      refine wfTrie_intro _ ?_ rlen rwf
      show t.children = countSome nibbles1
      omega
    | STOP =>
      rw [if_neg (fun hx => DStatus.noConfusion hx)] at h
      injection h with h
      injection h with ha hb
      rw [← ha]
      refine wfTrie_intro _ ?_ rlen rwf
      show t.children = countSome nibbles1
      omega
    | CONTINUE =>
      obtain ⟨cb, nib2, hbo, hslot, hnib2ch⟩ := rcont rfl
      subst hbo
      have hpos : 0 < countSome nibbles1 := countSome_pos_of_slotGet_some _ _ _ hslot
      have hchpos : t.children ≠ 0 := by
        rw [h1, ← rcount]
        omega
      rw [if_pos rfl, if_pos hchpos] at h
      injection h with h
      injection h with ha hb
      rw [← ha]
      refine wfTrie_intro _ ?_ ?_ ?_
      · show t.children - 1 = countSome (nibbles1.set (highNib ((some cb).getD 0)) none)
        have hdrop := countSome_set_none_of_some nibbles1 (highNib cb) _ hslot
        simp only [Option.getD_some]
        omega
      · show (nibbles1.set (highNib ((some cb).getD 0)) none).length = 16
        rw [List.length_set]
        exact rlen
      · exact wfNibList_set_none _ _ rwf

/-- Claim C8 invariant: in every reachable state every child counter equals
the number of non-NULL slots of its 16-slot array. -/
theorem reachable_wfTrie (t : GntTrie) (h : Reachable t) : wfTrie t = true := by
  induction h with
  | create => decide
  | insert t bytes d dl t2 trace hreach hstep ihw =>
    exact gnt_insert_wfTrie t bytes d dl t2 trace ihw hstep
  | delete t bytes dl t2 trace hreach hstep ihw =>
    exact gnt_delete_wfTrie t bytes dl t2 trace ihw hstep

/-! ### Sequence-level insert and search lemmas -/

theorem gnt_search_insert_state_self (t : GntTrie) (k : List Nat) (d : Nat)
    (hk : ValidKey k) (hwf : wfTrie t = true) :
    gnt_search (gnt_insert_state t k d) k = some d := by
  obtain ⟨h1, h2, h3⟩ := wfTrie_elim t hwf
  obtain ⟨hk1, hk2⟩ := hk
  cases k with
  | nil => exact absurd rfl hk1
  | cons b rest =>
    simp only [gnt_insert_state, gnt_insert, gnt_search]
    exact congrArg some (gnt_search_insert_self rest t.children t.nibbles b d false h2 h3)

theorem gnt_search_insert_state_other (t : GntTrie) (k k2 : List Nat) (d : Nat)
    (hk : ValidKey k) (hk2 : ValidKey k2) (hne : k ≠ k2) (hwf : wfTrie t = true) :
    gnt_search (gnt_insert_state t k d) k2 = gnt_search t k2 := by
  obtain ⟨h1, h2, h3⟩ := wfTrie_elim t hwf
  obtain ⟨hka, hkb⟩ := hk
  obtain ⟨hkc, hkd⟩ := hk2
  cases k with
  | nil => exact absurd rfl hka
  | cons b rest =>
    cases k2 with
    | nil => exact absurd rfl hkc
    | cons b2 rest2 =>
      simp only [gnt_insert_state, gnt_insert, gnt_search]
      exact congrArg some
        (gnt_search_insert_other rest2 rest t.children t.nibbles b b2 d false h2 h3 hkb hkd hne)

theorem gnt_insert_state_wfTrie (t : GntTrie) (k : List Nat) (d : Nat)
    (hwf : wfTrie t = true) : wfTrie (gnt_insert_state t k d) = true := by
  cases k with
  | nil => simpa [gnt_insert_state, gnt_insert] using hwf
  | cons b rest =>
    exact gnt_insert_wfTrie t (b :: rest) d false (gnt_insert_state t (b :: rest) d)
      (gnt_insert_walk t.children t.nibbles b rest d false).2.2 hwf rfl

theorem insertAll_wfTrie (ops : List (List Nat × Nat)) :
    ∀ (t : GntTrie), wfTrie t = true → wfTrie (insertAll t ops) = true := by
  induction ops with
  | nil => intro t h; simpa [insertAll] using h
  | cons p ops ih =>
    intro t h
    have step := gnt_insert_state_wfTrie t p.1 p.2 h
    simpa [insertAll] using ih _ step

theorem insertAll_append (t : GntTrie) (ops : List (List Nat × Nat))
    (p : List Nat × Nat) :
    insertAll t (ops ++ [p]) = gnt_insert_state (insertAll t ops) p.1 p.2 := by
  simp [insertAll, List.foldl_append]

theorem lastPayload_append (ops : List (List Nat × Nat)) (p : List Nat × Nat)
    (k : List Nat) :
    lastPayload (ops ++ [p]) k = if p.1 = k then some p.2 else lastPayload ops k := by
  simp [lastPayload, List.foldl_append]

theorem lastPayload_some_mem (ops : List (List Nat × Nat)) (k : List Nat) (d : Nat) :
    lastPayload ops k = some d → ∃ q ∈ ops, q.1 = k := by
  have general : ∀ (l : List (List Nat × Nat)) (acc : Option Nat),
      l.foldl (fun acc p => if p.1 = k then some p.2 else acc) acc = some d →
      (∃ q ∈ l, q.1 = k) ∨ acc = some d := by
    intro l
    induction l with
    | nil => intro acc h; exact Or.inr h
    | cons p l ih =>
      intro acc h
      rcases ih _ (by simpa [List.foldl_cons] using h) with hmem | hacc
      · obtain ⟨q, hq, hqk⟩ := hmem
        exact Or.inl ⟨q, List.mem_cons_of_mem _ hq, hqk⟩
      · by_cases hp : p.1 = k
        · exact Or.inl ⟨p, List.mem_cons_self _ _, hp⟩
        · rw [if_neg hp] at hacc
          exact Or.inr hacc
  intro h
  rcases general ops none h with hmem | hacc
  · exact hmem
  · exact Option.noConfusion hacc

/-- Search after a sequence of inserts from the empty trie returns the most
recent payload written for the key. -/
theorem insertAll_search_last (ops : List (List Nat × Nat)) :
    (∀ p ∈ ops, ValidKey p.1) → ∀ (k : List Nat) (d : Nat),
    lastPayload ops k = some d →
    gnt_search (insertAll gntCreate ops) k = some d := by
  induction ops using List.reverseRecOn with
  | nil =>
    intro _ k d h
    simp [lastPayload] at h
  | append_singleton ops p ih =>
    intro hvalid k d h
    rw [lastPayload_append] at h
    rw [insertAll_append]
    have hwfall : wfTrie (insertAll gntCreate ops) = true :=
      insertAll_wfTrie ops gntCreate (by decide)
    have hpvalid : ValidKey p.1 := hvalid p (by simp)
    by_cases hpk : p.1 = k
    · rw [if_pos hpk] at h
      injection h with h
      rw [← hpk, ← h]
      exact gnt_search_insert_state_self _ _ _ hpvalid hwfall
    · rw [if_neg hpk] at h
      obtain ⟨q, hqmem, hqk⟩ := lastPayload_some_mem ops k d h
      have hkvalid : ValidKey k := hqk ▸ hvalid q (by simp [hqmem])
      rw [gnt_search_insert_state_other _ _ _ _ hpvalid hkvalid hpk hwfall]
      exact ih (fun q hq => hvalid q (by simp [hq])) k d h

/-! ### GBT/GNT engine equivalence lemmas -/

theorem gbt_insert_walk_equiv (rest : List Nat) :
    ∀ (children : Nat) (nibbles : List (Option GntNibble)) (b d : Nat) (dl : Bool),
    Gbt.gbt_insert_walk children nibbles b rest d dl
      = gnt_insert_walk children nibbles b rest d dl := by
  induction rest with
  | nil =>
    intro children nibbles b d dl
    simp only [Gbt.gbt_insert_walk, gnt_insert_walk]
  | cons b2 rest2 ih =>
    intro children nibbles b d dl
    simp only [Gbt.gbt_insert_walk, gnt_insert_walk, ih]

theorem gbt_search_walk_equiv (rest : List Nat) :
    ∀ (nibbles : List (Option GntNibble)) (b : Nat),
    Gbt.gbt_search_walk nibbles b rest = gnt_search_walk nibbles b rest := by
  induction rest with
  | nil =>
    intro nibbles b
    rw [Gbt.gbt_search_walk.eq_1, gnt_search_walk.eq_1]
  | cons b2 rest2 ih =>
    intro nibbles b
    rw [Gbt.gbt_search_walk.eq_1, gnt_search_walk.eq_1]
    simp only [ih]

theorem gbt_delete_recursive_equiv (bytes : List Nat) :
    ∀ (nibbles : List (Option GntNibble)) (dl : Bool),
    Gbt.gbt_delete_recursive nibbles bytes dl = gnt_delete_recursive nibbles bytes dl := by
  induction bytes with
  | nil =>
    intro nibbles dl
    simp only [Gbt.gbt_delete_recursive, gnt_delete_recursive]
  | cons b rest ih =>
    intro nibbles dl
    simp only [Gbt.gbt_delete_recursive, gnt_delete_recursive, ih]

theorem gbt_destroy_equiv_bundle (n : Nat) :
    (∀ l : List (Option GntNibble), sizeOf l ≤ n → ∀ (c : Nat) (dl : Bool),
      Gbt.gbt_destroy_recursive_nibbles l c dl = gnt_destroy_recursive_nibbles l c dl)
    ∧ (∀ l : List (Option GntNode), sizeOf l ≤ n → ∀ (c : Nat) (dl : Bool),
      Gbt.gbt_destroy_recursive_nodes l c dl = gnt_destroy_recursive_nodes l c dl) := by
  induction n using Nat.strong_induction_on with
  | _ n ihn =>
    constructor
    · intro l hsize c dl
      match l, c with
      | _, 0 =>
        simp only [Gbt.gbt_destroy_recursive_nibbles, gnt_destroy_recursive_nibbles]
      | [], c + 1 =>
        simp only [Gbt.gbt_destroy_recursive_nibbles, gnt_destroy_recursive_nibbles]
      | none :: rest, c + 1 =>
        have hlt : sizeOf rest < n := by
          have : sizeOf rest < sizeOf (none :: rest : List (Option GntNibble)) := by
            simp_arith
          omega
        simp only [Gbt.gbt_destroy_recursive_nibbles, gnt_destroy_recursive_nibbles,
          (ihn (sizeOf rest) hlt).1 rest (le_refl _)]
      | some (.mk nch nnodes) :: rest, c + 1 =>
        have hlt1 : sizeOf (nnodes : List (Option GntNode)) < n := by
          have : sizeOf nnodes
              < sizeOf (some (GntNibble.mk nch nnodes) :: rest : List (Option GntNibble)) := by
            simp_arith
          omega
        have hlt2 : sizeOf rest < n := by
          have : sizeOf rest
              < sizeOf (some (GntNibble.mk nch nnodes) :: rest : List (Option GntNibble)) := by
            simp_arith
          omega
        simp only [Gbt.gbt_destroy_recursive_nibbles, gnt_destroy_recursive_nibbles,
          Gbt.gbt_destroy_one_nibble, gnt_destroy_one_nibble,
          (ihn (sizeOf nnodes) hlt1).2 nnodes (le_refl _),
          (ihn (sizeOf rest) hlt2).1 rest (le_refl _)]
    · intro l hsize c dl
      match l, c with
      | _, 0 =>
        simp only [Gbt.gbt_destroy_recursive_nodes, gnt_destroy_recursive_nodes]
      | [], c + 1 =>
        simp only [Gbt.gbt_destroy_recursive_nodes, gnt_destroy_recursive_nodes]
      | none :: rest, c + 1 =>
        have hlt : sizeOf rest < n := by
          have : sizeOf rest < sizeOf (none :: rest : List (Option GntNode)) := by
            simp_arith
          omega
        simp only [Gbt.gbt_destroy_recursive_nodes, gnt_destroy_recursive_nodes,
          (ihn (sizeOf rest) hlt).2 rest (le_refl _)]
      | some (.mk occ nch nd nnibs) :: rest, c + 1 =>
        have hlt1 : sizeOf (nnibs : List (Option GntNibble)) < n := by
          have : sizeOf nnibs
              < sizeOf (some (GntNode.mk occ nch nd nnibs) :: rest : List (Option GntNode)) := by
            simp_arith
          omega
        have hlt2 : sizeOf rest < n := by
          have : sizeOf rest
              < sizeOf (some (GntNode.mk occ nch nd nnibs) :: rest : List (Option GntNode)) := by
            simp_arith
          omega
        simp only [Gbt.gbt_destroy_recursive_nodes, gnt_destroy_recursive_nodes,
          Gbt.gbt_destroy_one_node, gnt_destroy_one_node,
          (ihn (sizeOf nnibs) hlt1).1 nnibs (le_refl _),
          (ihn (sizeOf rest) hlt2).2 rest (le_refl _)]

theorem gbt_destroy_recursive_nibbles_equiv (l : List (Option GntNibble)) (c : Nat)
    (dl : Bool) :
    Gbt.gbt_destroy_recursive_nibbles l c dl = gnt_destroy_recursive_nibbles l c dl :=
  (gbt_destroy_equiv_bundle (sizeOf l)).1 l (le_refl _) c dl

/-! ### Default accessor characterizations -/

theorem gnt_digits_lt (key : Nat) (h : key < 256) : gnt_digits key = 1 := by
  rw [gnt_digits, if_pos h]

theorem gnt_digits_ge (key : Nat) (h : 256 ≤ key) :
    gnt_digits key = 1 + gnt_digits (key / 256) := by
  rw [gnt_digits, if_neg (by omega)]

theorem gnt_digits_pos (key : Nat) : 0 < gnt_digits key := by
  rw [gnt_digits]
  split <;> omega

theorem gnt_default_bytes_ne_nil (key : Nat) : gnt_default_bytes key ≠ [] := by
  have := gnt_digits_pos key
  simp only [gnt_default_bytes, ne_eq, List.map_eq_nil_iff, List.range_eq_nil]
  omega

/-- The byte sequence the default gnt accessor produces is the base-256,
most-significant-first decomposition of the key. -/
theorem gnt_default_bytes_msb (key : Nat) :
    gnt_default_bytes key = GntSpec.base256BytesMSB key := by
  induction key using Nat.strong_induction_on with
  | _ key ih =>
    by_cases h : key < 256
    · rw [GntSpec.base256BytesMSB, if_pos h]
      have hr : List.range 1 = [0] := rfl
      simp only [gnt_default_bytes, gnt_digits_lt key h, hr, List.map_cons, List.map_nil]
      norm_num [Nat.mod_eq_of_lt h]
    · have h2 : 256 ≤ key := by omega
      rw [GntSpec.base256BytesMSB, if_neg h,
        ← ih (key / 256) (Nat.div_lt_self (by omega) (by omega))]
      rw [gnt_default_bytes, gnt_default_bytes, gnt_digits_ge key h2, Nat.add_comm 1,
        List.range_succ, List.map_append, List.map_cons, List.map_nil]
      congr 1
      · apply List.map_congr_left
        intro i hi
        rw [List.mem_range] at hi
        have harith : gnt_digits (key / 256) + 1 - i - 1 = (gnt_digits (key / 256) - i - 1) + 1 := by
          omega
        rw [harith, pow_succ, Nat.mul_comm, ← Nat.div_div_eq_div_mul]
      · simp

theorem gbt_digits_lt (key : Nat) (h : key < 10) : Gbt.gbt_digits key = 1 := by
  rw [Gbt.gbt_digits, if_pos h]

theorem gbt_digits_ge (key : Nat) (h : 10 ≤ key) :
    Gbt.gbt_digits key = 1 + Gbt.gbt_digits (key / 10) := by
  rw [Gbt.gbt_digits, if_neg (by omega)]

/-- The byte sequence the default gbt accessor produces is the decimal,
most-significant-first digit decomposition of the key. -/
theorem gbt_default_bytes_msb (key : Nat) :
    Gbt.gbt_default_bytes key = GntSpec.decimalDigitsMSB key := by
  induction key using Nat.strong_induction_on with
  | _ key ih =>
    by_cases h : key < 10
    · rw [GntSpec.decimalDigitsMSB, if_pos h]
      have hr : List.range 1 = [0] := rfl
      simp only [Gbt.gbt_default_bytes, gbt_digits_lt key h, hr, List.map_cons, List.map_nil]
      norm_num [Nat.mod_eq_of_lt h]
    · have h2 : 10 ≤ key := by omega
      rw [GntSpec.decimalDigitsMSB, if_neg h,
        ← ih (key / 10) (Nat.div_lt_self (by omega) (by omega))]
      rw [Gbt.gbt_default_bytes, Gbt.gbt_default_bytes, gbt_digits_ge key h2, Nat.add_comm 1,
        List.range_succ, List.map_append, List.map_cons, List.map_nil]
      congr 1
      · apply List.map_congr_left
        intro i hi
        rw [List.mem_range] at hi
        have harith : Gbt.gbt_digits (key / 10) + 1 - i - 1
            = (Gbt.gbt_digits (key / 10) - i - 1) + 1 := by
          omega
        rw [harith, pow_succ, Nat.mul_comm, ← Nat.div_div_eq_div_mul]
      · simp

/-! ### Destroy visits every node when the counts are truthful -/

theorem allDataNibList_of_countSome_zero (l : List (Option GntNibble))
    (h : countSome l = 0) : allDataNibList l = [] := by
  induction l with
  | nil => rfl
  | cons a rest ih =>
    cases a with
    | none =>
      simp only [allDataNibList]
      exact ih (by simpa [countSome] using h)
    | some nib => simp [countSome] at h

theorem allDataNodeList_of_countSome_zero (l : List (Option GntNode))
    (h : countSome l = 0) : allDataNodeList l = [] := by
  induction l with
  | nil => rfl
  | cons a rest ih =>
    cases a with
    | none =>
      simp only [allDataNodeList]
      exact ih (by simpa [countSome] using h)
    | some nd => simp [countSome] at h

theorem destroy_allData_bundle (n : Nat) :
    (∀ l : List (Option GntNibble), sizeOf l ≤ n → wfNibList l = true →
      gnt_destroy_recursive_nibbles l (countSome l) true = allDataNibList l)
    ∧ (∀ l : List (Option GntNode), sizeOf l ≤ n → wfNodeList l = true →
      gnt_destroy_recursive_nodes l (countSome l) true = allDataNodeList l) := by
  induction n using Nat.strong_induction_on with
  | _ n ihn =>
    constructor
    · intro l hsize hwf
      match l with
      | [] =>
        rfl
      | none :: rest =>
        have hlt : sizeOf rest < n := by
          have : sizeOf rest < sizeOf (none :: rest : List (Option GntNibble)) := by
            simp_arith
          omega
        have hwfr : wfNibList rest = true := by simpa [wfNibList] using hwf
        show gnt_destroy_recursive_nibbles (none :: rest) (countSome rest) true
          = allDataNibList (none :: rest)
        cases hc : countSome rest with
        | zero =>
          rw [gnt_destroy_recursive_nibbles]
          rw [allDataNibList, allDataNibList_of_countSome_zero rest hc]
        | succ m =>
          simp only [gnt_destroy_recursive_nibbles]
          rw [allDataNibList, ← hc]
          exact (ihn (sizeOf rest) hlt).1 rest (le_refl _) hwfr
      | some (.mk nch nnodes) :: rest =>
        have hlt1 : sizeOf (nnodes : List (Option GntNode)) < n := by
          have : sizeOf nnodes
              < sizeOf (some (GntNibble.mk nch nnodes) :: rest : List (Option GntNibble)) := by
            simp_arith
          omega
        have hlt2 : sizeOf rest < n := by
          have : sizeOf rest
              < sizeOf (some (GntNibble.mk nch nnodes) :: rest : List (Option GntNibble)) := by
            simp_arith
          omega
        have hwfparts : wfNib (.mk nch nnodes) = true ∧ wfNibList rest = true := by
          have := hwf
          simp [wfNibList] at this
          exact this
        obtain ⟨hn1, hn2, hn3⟩ := wfNib_elim _ _ hwfparts.1
        show gnt_destroy_recursive_nibbles (some (.mk nch nnodes) :: rest)
            (countSome rest + 1) true
          = allDataNibList (some (.mk nch nnodes) :: rest)
        simp only [gnt_destroy_recursive_nibbles, gnt_destroy_one_nibble, allDataNibList,
          allDataNib]
        rw [Nat.add_sub_cancel, hn1]
        rw [(ihn (sizeOf nnodes) hlt1).2 nnodes (le_refl _) hn3,
          (ihn (sizeOf rest) hlt2).1 rest (le_refl _) hwfparts.2]
    · intro l hsize hwf
      match l with
      | [] =>
        rfl
      | none :: rest =>
        have hlt : sizeOf rest < n := by
          have : sizeOf rest < sizeOf (none :: rest : List (Option GntNode)) := by
            simp_arith
          omega
        have hwfr : wfNodeList rest = true := by simpa [wfNodeList] using hwf
        show gnt_destroy_recursive_nodes (none :: rest) (countSome rest) true
          = allDataNodeList (none :: rest)
        cases hc : countSome rest with
        | zero =>
          rw [gnt_destroy_recursive_nodes]
          rw [allDataNodeList, allDataNodeList_of_countSome_zero rest hc]
        | succ m =>
          simp only [gnt_destroy_recursive_nodes]
          rw [allDataNodeList, ← hc]
          exact (ihn (sizeOf rest) hlt).2 rest (le_refl _) hwfr
      | some (.mk occ nch nd nnibs) :: rest =>
        have hlt1 : sizeOf (nnibs : List (Option GntNibble)) < n := by
          have : sizeOf nnibs
              < sizeOf (some (GntNode.mk occ nch nd nnibs) :: rest : List (Option GntNode)) := by
            simp_arith
          omega
        have hlt2 : sizeOf rest < n := by
          have : sizeOf rest
              < sizeOf (some (GntNode.mk occ nch nd nnibs) :: rest : List (Option GntNode)) := by
            simp_arith
          omega
        have hwfparts : wfNode (.mk occ nch nd nnibs) = true ∧ wfNodeList rest = true := by
          have := hwf
          simp [wfNodeList] at this
          exact this
        obtain ⟨hm1, hm2, hm3⟩ := wfNode_elim _ _ _ _ hwfparts.1
        show gnt_destroy_recursive_nodes (some (.mk occ nch nd nnibs) :: rest)
            (countSome rest + 1) true
          = allDataNodeList (some (.mk occ nch nd nnibs) :: rest)
        simp only [gnt_destroy_recursive_nodes, gnt_destroy_one_node, allDataNodeList,
          allDataNode]
        rw [Nat.add_sub_cancel, hm1]
        rw [(ihn (sizeOf nnibs) hlt1).1 nnibs (le_refl _) hm3,
          (ihn (sizeOf rest) hlt2).2 rest (le_refl _) hwfparts.2]
        simp

/-- With a configured deallocator, gnt_destroy passes to it the data field of
every allocated node of a well-formed trie, exactly once each, in the
depth-first order of the traversal. -/
theorem gnt_destroy_eq_allData (t : GntTrie) (hwf : wfTrie t = true) :
    gnt_destroy t true = allData t := by
  obtain ⟨h1, h2, h3⟩ := wfTrie_elim t hwf
  rw [gnt_destroy, allData, h1]
  exact (destroy_allData_bundle (sizeOf t.nibbles)).1 t.nibbles (le_refl _) h3

/-! ### Claim theorems -/

/-- Claim C1 (code bug): deleting a key whose byte sequence has a proper
prefix that is also a stored key can free a node still on the prefix key
path.  With string keys "a" (payload 1) and "ab" (payload 2) inserted,
gnt_delete of "ab" unwinds with CONTINUE through the occupied node of "a"
without consulting its occupied flag, frees it, and empties the whole trie:
the subsequent search of "a" returns 0 instead of 1, contradicting the
claim. -/
theorem C1_delete_frees_occupied_prefix_node :
    gnt_search trieAB [97] = some 1
    ∧ gnt_search trieAB [97, 98] = some 2
    ∧ (gnt_delete trieAB [97, 98] false).map
        (fun r => (gnt_search r.1 [97], r.1.children, countSome r.1.nibbles))
      = some (some 0, 0, 0) := by
  decide

/-- Claim C2 (code bug): gnt_delete of an absent key is not a no-op.  If the
key path is absent at some level, _gnt_delete_recursive dereferences a NULL
nibble or node pointer (modelled by none): with only "a" stored, deleting
"ab" crashes.  If the full path exists but the terminal node is not
occupied, the deallocator is invoked anyway (on the zeroed data field):
with only "ab" stored, deleting "a" makes one deallocator call with
argument 0. -/
theorem C2_delete_absent_key_not_noop :
    gnt_delete trieA [97, 98] false = none
    ∧ (gnt_delete trieOnlyAB [97] true).map (fun r => r.2) = some [0] := by
  constructor
  · rfl
  · decide

/-- Claim C3 (counterexample): gnt_search with a NULL handle does not return
the sentinel zero; it returns (gnt_data_t)(-1) = 2^64 - 1. -/
theorem C3_null_search_not_zero : gnt_search_c none [97] ≠ some 0 := by
  decide

/-- Claim C3 (amended): gnt_search returns 2^64 - 1 (the conversion of the
C return value -1 to the 64-bit unsigned gnt_data_t) when the handle is
NULL; otherwise it returns the sentinel 0 when the trie is empty or any
nibble or node slot on the key path is absent, and on full path resolution
it returns the terminal node data field regardless of the occupied flag.
The operation is a pure read: the trie state is unchanged. -/
theorem C3_search_semantics (t : GntTrie) (b : Nat) (rest : List Nat) :
    gnt_search_c none (b :: rest) = some (2 ^ 64 - 1)
    ∧ gnt_search_c (some t) (b :: rest)
        = some (match resolvePath t.nibbles b rest with
                | none => 0
                | some node => node.data) := by
  constructor
  · rfl
  · simp only [gnt_search_c, gnt_search]
    exact congrArg some (gnt_search_walk_resolve rest t.nibbles b)

/-- Claim C4: over any sequence of inserts from the empty trie (keys given
by their non-empty uint8 byte sequences), searching an inserted key returns
the most recent payload stored for exactly that key, and a single insert
never changes the search result of any other key, shared prefixes or not. -/
theorem C4_insert_search_exact :
    (∀ ops : List (List Nat × Nat), (∀ p ∈ ops, ValidKey p.1) →
      ∀ (k : List Nat) (d : Nat), lastPayload ops k = some d →
        gnt_search (insertAll gntCreate ops) k = some d)
    ∧ (∀ (t : GntTrie) (k k2 : List Nat) (d : Nat),
        wfTrie t = true → ValidKey k → ValidKey k2 → k ≠ k2 →
        gnt_search (gnt_insert_state t k d) k2 = gnt_search t k2) :=
  ⟨insertAll_search_last,
   fun t k k2 d hwf hk hk2 hne => gnt_search_insert_state_other t k k2 d hk hk2 hne hwf⟩

/-- Claim C4 witness: concrete instance with keys "a" and "ab" and an
overwrite of "a". -/
theorem C4_witness :
    gnt_search (insertAll gntCreate [([97], 1), ([97, 98], 2), ([97], 5)]) [97] = some 5 :=
  C4_insert_search_exact.1 [([97], 1), ([97, 98], 2), ([97], 5)] (by decide) [97] 5 (by decide)

/-- Claim C5 (code bug): deleting every inserted key once, in an order that
first deletes a key whose proper prefix is also stored, does not leave an
empty trie: after inserting "a" and "ab" into an empty trie, deleting "ab"
already (wrongly) frees the node of "a" and empties the trie, and the
second delete, of "a", then dereferences a NULL pointer (modelled none)
instead of completing with zero allocated nodes. -/
theorem C5_delete_all_order_crashes :
    (gnt_delete trieAB [97, 98] false).isSome = true
    ∧ ((gnt_delete trieAB [97, 98] false).bind (fun r => gnt_delete r.1 [97] false)) = none := by
  constructor
  · rfl
  · rfl

/-- Claim C6 (counterexample): gnt_destroy does not restrict the deallocator
to occupied nodes.  The trie holding only "ab" (payload 2) has exactly one
occupied node, with payload 2, yet destroy with a configured deallocator
makes two calls: one with 2 and one with 0, the data field of the
unoccupied routing node for the prefix "a". -/
theorem C6_destroy_calls_on_unoccupied :
    occData trieOnlyAB = [2]
    ∧ gnt_destroy trieOnlyAB true = [2, 0]
    ∧ gnt_destroy trieOnlyAB true ≠ occData trieOnlyAB := by
  decide

/-- Claim C6 (amended): with a configured deallocator, gnt_destroy of a
well-formed trie invokes the deallocator exactly once per allocated
ByteNode — occupied or not — passing each node data field (which is zero
for unoccupied routing nodes), in depth-first order; every allocated node
and the handle are freed. -/
theorem C6_destroy_dealloc_per_node (t : GntTrie) (hwf : wfTrie t = true) :
    gnt_destroy t true = allData t :=
  gnt_destroy_eq_allData t hwf

/-- Claim C6 witness: the amended statement evaluated on the concrete trie
holding only "ab". -/
theorem C6_witness :
    wfTrie trieOnlyAB = true ∧ gnt_destroy trieOnlyAB true = allData trieOnlyAB :=
  ⟨by decide, C6_destroy_dealloc_per_node trieOnlyAB (by decide)⟩

/-- Claim C7: when insert reaches a terminal node that is already occupied
and a deallocator is configured, the deallocator is invoked exactly once,
on the previously stored payload (never the new one); with an unoccupied
or freshly created terminal node, or with no deallocator configured, it is
invoked zero times. -/
theorem C7_insert_overwrite_dealloc (t : GntTrie) (b : Nat) (rest : List Nat) (d : Nat) :
    (gnt_insert t (b :: rest) d true).map (fun r => r.2)
      = some (match resolvePath t.nibbles b rest with
              | some node => if node.occupied then [node.data] else []
              | none => [])
    ∧ (gnt_insert t (b :: rest) d false).map (fun r => r.2) = some [] := by
  constructor
  · simp only [gnt_insert, Option.map_some]
    rw [gnt_insert_walk_trace rest t.children t.nibbles b d true]
    cases hres : resolvePath t.nibbles b rest with
    | none => rfl
    | some node => simp
  · simp only [gnt_insert, Option.map_some]
    rw [gnt_insert_walk_trace rest t.children t.nibbles b d false]
    cases hres : resolvePath t.nibbles b rest with
    | none => rfl
    | some node => simp

/-- Claim C8: in every trie state reachable from gnt_create through
successful gnt_insert and gnt_delete operations, the children counter of
the root and of every nibble layer and node equals the exact number of
non-NULL slots of the corresponding 16-slot array. -/
theorem C8_child_counts_accurate (t : GntTrie) (h : Reachable t) : wfTrie t = true :=
  reachable_wfTrie t h

/-- Claim C8 witness: the invariant holds for the concrete reachable state
with key "a" inserted. -/
theorem C8_witness : wfTrie trieA = true :=
  C8_child_counts_accurate trieA
    (Reachable.insert gntCreate [97] 1 false trieA [] Reachable.create rfl)

/-- Claim C9: with an explicitly supplied accessor and deallocator the GBT
and GNT engines are behaviorally identical: on the same byte sequences
insert, search, delete and destroy produce the same results, the same tree
states and the same deallocator calls; the variants differ only in the
mutex (a no-op under the sequential semantics) and in their default
accessors, GBT decomposing a key into decimal digits most-significant-first
and GNT into base-256 bytes most-significant-first. -/
theorem C9_gbt_gnt_equivalence :
    (∀ (t : GntTrie) (bytes : List Nat) (d : Nat) (dl : Bool),
      Gbt.gbt_insert t bytes d dl = gnt_insert t bytes d dl)
    ∧ (∀ (t : GntTrie) (bytes : List Nat), Gbt.gbt_search t bytes = gnt_search t bytes)
    ∧ (∀ (t : GntTrie) (bytes : List Nat) (dl : Bool),
      Gbt.gbt_delete t bytes dl = gnt_delete t bytes dl)
    ∧ (∀ (t : GntTrie) (dl : Bool), Gbt.gbt_destroy t dl = gnt_destroy t dl)
    ∧ (∀ key : Nat, Gbt.gbt_default_bytes key = GntSpec.decimalDigitsMSB key)
    ∧ (∀ key : Nat, gnt_default_bytes key = GntSpec.base256BytesMSB key) := by
  refine ⟨?_, ?_, ?_, ?_, gbt_default_bytes_msb, gnt_default_bytes_msb⟩
  · intro t bytes d dl
    cases bytes with
    | nil => rfl
    | cons b rest => simp only [Gbt.gbt_insert, gnt_insert, gbt_insert_walk_equiv]
  · intro t bytes
    cases bytes with
    | nil => rfl
    | cons b rest => simp only [Gbt.gbt_search, gnt_search, gbt_search_walk_equiv]
  · intro t bytes dl
    simp only [Gbt.gbt_delete, gnt_delete, gbt_delete_recursive_equiv]
  · intro t dl
    simp only [Gbt.gbt_destroy, gnt_destroy, gbt_destroy_recursive_nibbles_equiv]

/-- Claim C10: gnt_insert is well-defined exactly when the accessor yields
at least one byte: on an empty byte sequence the C code reads an
uninitialized node pointer (modelled none), and on any non-empty sequence
the insert succeeds.  The default numeric accessor meets the precondition
for every key: its byte sequence is never empty, and for key 0 it produces
exactly one byte (byte 0 at index 0, end-of-key at index 1).  The string
accessor applied to the empty string yields the empty sequence. -/
theorem C10_insert_needs_nonempty_key :
    (∀ (t : GntTrie) (d : Nat) (dl : Bool), gnt_insert t [] d dl = none)
    ∧ (∀ (t : GntTrie) (b : Nat) (rest : List Nat) (d : Nat) (dl : Bool),
      (gnt_insert t (b :: rest) d dl).isSome = true)
    ∧ (∀ key : Nat, gnt_default_bytes key ≠ [])
    ∧ gnt_default_bytes 0 = [0]
    ∧ gnt_accessor_default 0 0 = some 0
    ∧ gnt_accessor_default 0 1 = none
    ∧ gnt_accessor_string [] 0 = none := by
  refine ⟨fun t d dl => rfl, fun t b rest d dl => rfl, gnt_default_bytes_ne_nil, ?_, ?_, ?_, rfl⟩
  · have hr : List.range 1 = [0] := rfl
    simp [gnt_default_bytes, gnt_digits_lt 0 (by omega), hr]
  · simp [gnt_accessor_default, gnt_digits_lt 0 (by omega)]
  · simp [gnt_accessor_default, gnt_digits_lt 0 (by omega)]

end Gnt
